import Mathlib

/-!
# Office-cam firmware: chunked image transfer

A shallow embedding of the image-transfer code of the office-cam firmware:

* `espnow-base/src/main.cpp`  (namespace `Base`): the base station that reassembles a photo
  from inbound ESP-NOW frames (`onReceive`, `savePhoto`);
* `espnow-cam/src/main.cpp`   (namespace `Cam`): the ESP-NOW sender (`sendPhoto`);
* `esp32-cam-udp/src/main.cpp` (namespace `CamUdp`): the UDP sender (`sendPhotoUDP`);
* `espnow-cam-auto/src/main.cpp` (namespace `CamAuto`): the ESP-NOW sender that discovers the
  base station from its beacon (`onReceive`, `sendPhoto`).

Bytes are natural numbers (a `uint8_t` is a number below 256); a frame or payload is the list
of its bytes, and its C length argument `len` is the length of that list.  32-bit unsigned
arithmetic is written with an explicit `% 2 ^ 32`.
-/

namespace OfficeCam

/-- A byte (`uint8_t`), as its numeric value. -/
abbrev Byte := Nat

/-- The ASCII bytes of the C literal "START:". -/
def START : List Byte := [83, 84, 65, 82, 84, 58]

/-- The ASCII bytes of the C literal "END". -/
def END : List Byte := [69, 78, 68]

/-- The ASCII bytes of the C literal "BASE:HELLO", the beacon the base broadcasts in `loop`. -/
def BASE_HELLO : List Byte := [66, 65, 83, 69, 58, 72, 69, 76, 76, 79]

/-- The `n` bytes of `buf` that start at position `off` (the C range `buf + off`, length `n`). -/
def slice (buf : List Byte) (off n : Nat) : List Byte := (buf.drop off).take n

/-! ## C library functions used by the firmware -/

/-- The C string held in a char buffer: the bytes before the first NUL. -/
def cstr (b : List Byte) : List Byte := b.takeWhile (fun c => c != 0)

/-- Whether `strncmp(a, b, n) == 0`: the C strings agree on their first `n` characters. -/
def strncmpEq (a b : List Byte) (n : Nat) : Bool := (cstr a).take n == (cstr b).take n

/-- Whether `strcmp(a, b) == 0`: the C strings are equal. -/
def strcmpEq (a b : List Byte) : Bool := cstr a == cstr b

/-- C `isspace` in the "C" locale: space, and the control characters 9 to 13. -/
def isspace (c : Byte) : Bool := c == 32 || (9 ≤ c && c ≤ 13)

/-- C `isdigit`. -/
def isdigit (c : Byte) : Bool := 48 ≤ c && c ≤ 57

/-- The digit loop of `atoi`: accumulate decimal digits until the first non-digit. -/
def atoiDigits : List Byte → Nat → Nat
  | [], acc => acc
  | c :: cs, acc => if isdigit c then atoiDigits cs (acc * 10 + (c - 48)) else acc

/-- C `atoi` on the C string in `s`: skip white space, read an optional sign, then the digits.
(The firmware only calls it on at most three characters, so the `int` result cannot overflow.) -/
def atoi (s : List Byte) : Int :=
  let t := (cstr s).dropWhile isspace
  if t.head? = some 45 then - (atoiDigits t.tail 0 : Int)
  else if t.head? = some 43 then (atoiDigits t.tail 0 : Int)
  else (atoiDigits t 0 : Int)

/-- Conversion of an `int` to `uint32_t`: reduction modulo `2 ^ 32`. -/
def toUInt32 (i : Int) : Nat := (i % 4294967296).toNat

/-- The digit loop behind `printf("%d", n)` for a non-negative `n`, most significant digit
first; `fuel` bounds the number of digits. -/
def decimalCore : Nat → Nat → List Byte → List Byte
  | 0, _, acc => acc
  | fuel + 1, n, acc =>
    if n / 10 = 0 then (48 + n % 10) :: acc
    else decimalCore fuel (n / 10) ((48 + n % 10) :: acc)

/-- The ASCII bytes `printf("%d", n)` produces for a non-negative `n`. -/
def decimal (n : Nat) : List Byte := decimalCore (n + 1) n []

/-! ## The base station (`espnow-base/src/main.cpp`) -/

namespace Base

/-- The capacity of the photo buffer: `#define MAX_PHOTO_SIZE 50000`. -/
def MAX_PHOTO_SIZE : Nat := 50000

/-- The global state of the base station.  `photoBuffer i` is the byte at address
`photoBuffer + i`; the array itself is the cells `i < MAX_PHOTO_SIZE`. -/
structure State where
  photoBuffer : Nat → Byte
  photoSize : Nat
  photoOffset : Nat

/-- The state after start-up: zero-initialised globals. -/
def init : State := { photoBuffer := fun _ => 0, photoSize := 0, photoOffset := 0 }

/-- What the environment answers during one call: the clock, and whether
`SD.open(filename, FILE_WRITE)` yields a file. -/
structure Env where
  millis : Nat
  sdOpen : Bool

/-- What the base station does to the outside world, in order of occurrence. -/
inductive Effect where
  /-- The call `Serial.printf("Receiving photo: %d bytes\n", photoSize)`. -/
  | logReceiving (photoSize : Nat)
  /-- The call `Serial.println("Photo complete!")`. -/
  | logComplete
  /-- The call `Serial.print(".")` after a data chunk was copied. -/
  | logDot
  /-- The call `file.write(photoBuffer, photoOffset)` on the file "/photo_<millis>.jpg". -/
  | fileWrite (millis : Nat) (bytes : List Byte)
  /-- The call `Serial.printf("\nSaved: %s (%d bytes)\n", filename, photoOffset)`. -/
  | logSaved (millis : Nat) (bytes : Nat)
  /-- The call `Serial.println("\nSD write failed!")`. -/
  | logSdFailed
  /-- The call `Serial.println("---PHOTO_START---")`. -/
  | logPhotoStart
  /-- The call `Serial.write(photoBuffer, photoOffset)`. -/
  | serialWrite (bytes : List Byte)
  /-- The call `Serial.println("---PHOTO_END---")`. -/
  | logPhotoEnd

/-- The first `n` bytes of the buffer, `photoBuffer[0..n)`. -/
def readBytes (buf : Nat → Byte) (n : Nat) : List Byte := (List.range n).map buf

/-- The effect of `memcpy(photoBuffer + off, data, len)` on the buffer memory. -/
def memcpy (buf : Nat → Byte) (off : Nat) (data : List Byte) : Nat → Byte :=
  fun i => if off ≤ i ∧ i < off + data.length then data.getD (i - off) 0 else buf i

/-- The function `savePhoto`. -/
def savePhoto (env : Env) (s : State) : State × List Effect :=
  if s.photoOffset = 0 then (s, [])
  else
    let image := readBytes s.photoBuffer s.photoOffset
    let out :=
      if env.sdOpen then
        [Effect.fileWrite env.millis image, Effect.logSaved env.millis s.photoOffset]
      else
        [Effect.logSdFailed, Effect.logPhotoStart, Effect.serialWrite image, Effect.logPhotoEnd]
    ({ s with photoOffset := 0 }, out)

/-- The receive callback `onReceive(mac, data, len)`, with `len = data.length`. -/
def onReceive (env : Env) (s : State) (_mac : List Byte) (data : List Byte) :
    State × List Effect :=
  let len := data.length
  if len < 10 then
    -- Control packet: `msg` is the copied bytes followed by the NUL terminator
    let msg := data.take (min len 31) ++ [0]
    if strncmpEq msg START 6 then
      let photoSize := toUInt32 (atoi (msg.drop 6))
      ({ s with photoSize := photoSize, photoOffset := 0 }, [Effect.logReceiving photoSize])
    else if strcmpEq msg END then
      let r := savePhoto env s
      (r.1, Effect.logComplete :: r.2)
    else (s, [])
  else
    -- Data chunk
    if (s.photoOffset + len) % 2 ^ 32 ≤ MAX_PHOTO_SIZE then
      ({ s with
          photoBuffer := memcpy s.photoBuffer s.photoOffset data
          photoOffset := (s.photoOffset + len) % 2 ^ 32 },
        [Effect.logDot])
    else (s, [])

/-- One inbound frame together with what the environment answers while it is handled. -/
structure Inbound where
  env : Env
  mac : List Byte
  data : List Byte

/-- The base station handling a sequence of inbound frames, one callback per frame. -/
def deliver : State → List Inbound → State × List Effect
  | s, [] => (s, [])
  | s, f :: fs =>
    let r := onReceive f.env s f.mac f.data
    let r2 := deliver r.1 fs
    (r2.1, r.2 ++ r2.2)

/-- The image bytes handed over by an effect: what was written to the file or dumped on the
serial line. -/
def Effect.image : Effect → Option (List Byte)
  | Effect.fileWrite _ bytes => some bytes
  | Effect.serialWrite bytes => some bytes
  | _ => none

/-- The images handed over in a run, in order. -/
def handedOver (out : List Effect) : List (List Byte) := out.filterMap Effect.image

/-- The frames `frames` as inbound frames that all come from `mac` and are all handled under
the environment `env`. -/
def inboundOf (env : Env) (mac : List Byte) (frames : List (List Byte)) : List Inbound :=
  frames.map (fun d => { env := env, mac := mac, data := d })

end Base

/-! ## The ESP-NOW sender (`espnow-cam/src/main.cpp`) -/

namespace Cam

/-- The chunk size of the sender: `#define CHUNK_SIZE 200`. -/
def CHUNK_SIZE : Nat := 200

/-- One call of `esp_now_send`: the frame handed to the transport, and whether the call
returned `ESP_OK`. -/
structure Send where
  frame : List Byte
  ok : Bool
deriving DecidableEq

/-- The chunk loop `while (sent < fb->len)` of `sendPhoto`, for a chunk size `chunkSize`.
`buf` is the frame buffer, `results k` is the status of the `k`-th call of `esp_now_send`
(`true` for `ESP_OK`), `call` counts the calls made so far, and `fuel` bounds the number of
iterations: the result is `none` when the loop is still running after `fuel` iterations, and
otherwise the calls made, in order, with the final value of `sent`. -/
def chunkLoop (chunkSize : Nat) (buf : List Byte) (results : Nat → Bool) :
    Nat → Nat → Nat → Option (List Send × Nat)
  | 0, sent, _ => if sent < buf.length then none else some ([], sent)
  | fuel + 1, sent, call =>
    if sent < buf.length then
      let chunk := min chunkSize (buf.length - sent)
      let result := results call
      let sent' := if result then sent + chunk else sent
      match chunkLoop chunkSize buf results fuel sent' (call + 1) with
      | none => none
      | some (sends, final) => some ({ frame := slice buf sent chunk, ok := result } :: sends, final)
    else some ([], sent)

/-- The function `sendPhoto` for a chunk size `chunkSize`.  `fb` is what `esp_camera_fb_get`
returned (`none` for a null frame buffer), `results k` is the status of the `k`-th call of
`esp_now_send`.  The result is `none` when the chunk loop is still running after `fuel`
iterations, and otherwise the calls of `esp_now_send` in order with the final `sent`. -/
def sendPhotoWith (chunkSize : Nat) (fb : Option (List Byte)) (results : Nat → Bool)
    (fuel : Nat) : Option (List Send × Nat) :=
  match fb with
  | none => some ([], 0)
  | some buf =>
    let startMsg := START ++ decimal buf.length
    match chunkLoop chunkSize buf results fuel 0 1 with
    | none => none
    | some (sends, sent) =>
      some ({ frame := startMsg, ok := results 0 } :: sends
              ++ [{ frame := END, ok := results (sends.length + 1) }], sent)

/-- The function `sendPhoto` of the firmware, with its `CHUNK_SIZE`. -/
def sendPhoto (fb : Option (List Byte)) (results : Nat → Bool) (fuel : Nat) :
    Option (List Send × Nat) :=
  sendPhotoWith CHUNK_SIZE fb results fuel

/-- The number of calls of `esp_now_send` that return `ESP_OK` among the `n` calls numbered
`call`, `call + 1`, ..., `call + n - 1`. -/
def accepted (results : Nat → Bool) : Nat → Nat → Nat
  | _, 0 => 0
  | call, n + 1 => (if results call then 1 else 0) + accepted results (call + 1) n

end Cam

/-! ## The UDP sender (`esp32-cam-udp/src/main.cpp`) -/

namespace CamUdp

/-- The chunk size of `sendPhotoUDP`: `const int chunkSize = 1400`. -/
def chunkSize : Nat := 1400

/-- The chunk count `int totalChunks = (fb->len + chunkSize - 1) / chunkSize` for a frame
buffer of `len` bytes.  (A frame buffer is far shorter than `2 ^ 31 - 1400` bytes, so the
32-bit arithmetic does not wrap.) -/
def totalChunks (len : Nat) : Nat := (len + chunkSize - 1) / chunkSize

/-- The data packet of iteration `i` of the chunk loop: `size` bytes from `fb->buf + offset`. -/
def chunk (buf : List Byte) (i : Nat) : List Byte :=
  let offset := i * chunkSize
  let size := min chunkSize (buf.length - offset)
  slice buf offset size

/-- The data packets of the loop `for (int i = 0; i < totalChunks; i++)`, in order. -/
def chunks (buf : List Byte) : List (List Byte) :=
  (List.range (totalChunks buf.length)).map (chunk buf)

/-- The header packet `udp.printf("START:%d:%d", fb->len, totalChunks)`. -/
def header (buf : List Byte) : List Byte :=
  START ++ decimal buf.length ++ [58] ++ decimal (totalChunks buf.length)

/-- The function `sendPhotoUDP`: the UDP packets it sends, in order.  `cameraOK` is the global
flag, `fb` is what `esp_camera_fb_get` returned (`none` for a null frame buffer). -/
def sendPhotoUDP (cameraOK : Bool) (fb : Option (List Byte)) : List (List Byte) :=
  if !cameraOK then []
  else
    match fb with
    | none => []
    | some buf => header buf :: chunks buf ++ [END]

end CamUdp

/-! ## The auto-discovery ESP-NOW sender (`espnow-cam-auto/src/main.cpp`) -/

/-- The ASCII bytes of the C literal "BASE:", the beacon signature the sender looks for. -/
def BASE : List Byte := [66, 65, 83, 69, 58]

namespace CamAuto

/-- The chunk size of the sender: `#define CHUNK_SIZE 200`. -/
def CHUNK_SIZE : Nat := 200

/-- The discovery state of the sender: the globals `baseMacAddress` and `baseFound`. -/
structure State where
  baseMacAddress : List Byte
  baseFound : Bool
deriving DecidableEq

/-- The state after start-up: the broadcast address, and no base found. -/
def init : State :=
  { baseMacAddress := [255, 255, 255, 255, 255, 255], baseFound := false }

/-- The receive callback `onReceive(mac, data, len)`, with `len = data.length`; `mac` is the
6-byte address of the originator.  (The serial log of the address is left out.) -/
def onReceive (s : State) (mac : List Byte) (data : List Byte) : State :=
  let len := data.length
  if 5 < len && data.take 5 == BASE then
    { baseMacAddress := mac.take 6, baseFound := true }
  else s

/-- What one call of `sendPhoto` did: the globals afterwards, whether `esp_camera_fb_get` was
called, the calls of `esp_now_send` in order, and the final value of `sent` (0 when the
chunk loop was not reached). -/
structure Outcome where
  state : State
  captured : Bool
  sends : List Cam.Send
  sent : Nat
deriving DecidableEq

/-- The function `sendPhoto` of the auto-discovery sender: the guard on `baseFound`, then the
same capture, Begin frame, chunk loop and End frame as `Cam.sendPhoto`.  The arguments are
those of `Cam.sendPhotoWith`; the result is `none` when the chunk loop is still running after
`fuel` iterations. -/
def sendPhoto (s : State) (fb : Option (List Byte)) (results : Nat → Bool) (fuel : Nat) :
    Option Outcome :=
  if !s.baseFound then
    some { state := s, captured := false, sends := [], sent := 0 }
  else
    match Cam.sendPhotoWith CHUNK_SIZE fb results fuel with
    | none => none
    | some (sends, sent) => some { state := s, captured := true, sends := sends, sent := sent }

end CamAuto

/-! ## Auxiliary lemmas -/

set_option maxRecDepth 100000

open Base

theorem readBytes_length (buf : Nat → Byte) (n : Nat) : (readBytes buf n).length = n := by
  simp [readBytes]

theorem readBytes_memcpy_append (buf : Nat → Byte) (off : Nat) (data : List Byte) :
    readBytes (memcpy buf off data) (off + data.length) = readBytes buf off ++ data := by
  unfold readBytes
  rw [List.range_add, List.map_append]
  congr 1
  · apply List.map_congr_left
    intro i hi
    have : i < off := List.mem_range.mp hi
    simp [memcpy]
    omega
  · apply List.ext_getElem
    · simp
    · intro i h1 h2
      simp at h1
      simp [memcpy, h1, List.getD_eq_getElem?_getD, List.getElem?_eq_getElem h1]

theorem memcpy_outside (buf : Nat → Byte) (off : Nat) (data : List Byte) (i : Nat)
    (h : i < off ∨ off + data.length ≤ i) : memcpy buf off data i = buf i := by
  simp [memcpy]
  omega

theorem onReceive_data (env : Env) (s : State) (mac data : List Byte)
    (h10 : 10 ≤ data.length) (hfit : s.photoOffset + data.length ≤ MAX_PHOTO_SIZE) :
    onReceive env s mac data =
      ({ s with
          photoBuffer := memcpy s.photoBuffer s.photoOffset data
          photoOffset := s.photoOffset + data.length }, [Effect.logDot]) := by
  have hlt : s.photoOffset + data.length < 2 ^ 32 := by
    have : MAX_PHOTO_SIZE = 50000 := rfl
    omega
  have hmod : (s.photoOffset + data.length) % 2 ^ 32 = s.photoOffset + data.length :=
    Nat.mod_eq_of_lt hlt
  unfold onReceive
  simp only [hmod]
  rw [if_neg (by omega), if_pos hfit]

theorem onReceive_data_reject (env : Env) (s : State) (mac data : List Byte)
    (h10 : 10 ≤ data.length) (hlen : s.photoOffset + data.length < 2 ^ 32)
    (hover : MAX_PHOTO_SIZE < s.photoOffset + data.length) :
    onReceive env s mac data = (s, []) := by
  have hmod : (s.photoOffset + data.length) % 2 ^ 32 = s.photoOffset + data.length :=
    Nat.mod_eq_of_lt hlen
  unfold onReceive
  simp only [hmod]
  rw [if_neg (by omega), if_neg (by omega)]

theorem cstr_START_append (r : List Byte) : cstr (START ++ r) = START ++ cstr r := by
  simp [cstr, START, List.takeWhile]

theorem strncmpEq_START (data : List Byte) (hlen : data.length < 10)
    (hpre : data.take 6 = START) :
    strncmpEq (data.take (min data.length 31) ++ [0]) START 6 = true := by
  have hmin : min data.length 31 = data.length := by omega
  have hsplit : data = START ++ data.drop 6 := by
    conv_lhs => rw [← List.take_append_drop 6 data, hpre]
  rw [hmin, List.take_length, hsplit, List.append_assoc, strncmpEq, cstr_START_append]
  have h0 : cstr START = START := by decide
  have h6 : START.length = 6 := rfl
  rw [h0, List.take_append_of_le_length (by rw [h6]), List.take_of_length_le (by rw [h6])]
  simp

theorem onReceive_begin (env : Env) (s : State) (mac data : List Byte)
    (hlen : data.length < 10) (hpre : data.take 6 = START) :
    onReceive env s mac data =
      ({ s with photoSize := toUInt32 (atoi ((data ++ [0]).drop 6)), photoOffset := 0 },
        [Effect.logReceiving (toUInt32 (atoi ((data ++ [0]).drop 6)))]) := by
  have hcmp := strncmpEq_START data hlen hpre
  have hmin : min data.length 31 = data.length := by omega
  unfold onReceive
  simp only [hcmp, if_pos hlen, if_true]
  rw [hmin, List.take_length]

theorem onReceive_END (env : Env) (s : State) (mac : List Byte) :
    onReceive env s mac END = ((savePhoto env s).1, Effect.logComplete :: (savePhoto env s).2) := by
  rfl

theorem handedOver_append (a b : List Effect) :
    handedOver (a ++ b) = handedOver a ++ handedOver b := by
  simp [handedOver]

theorem savePhoto_handedOver (env : Env) (s : State) (h : 0 < s.photoOffset) :
    handedOver (savePhoto env s).2 = [readBytes s.photoBuffer s.photoOffset] ∧
      (savePhoto env s).1 = { s with photoOffset := 0 } := by
  unfold savePhoto
  rw [if_neg (by omega)]
  cases env.sdOpen <;> simp [handedOver, Effect.image]

/-- Data chunks that fit are appended one after the other. -/
theorem deliver_data (fs : List Inbound) : ∀ (s : State),
    (∀ f ∈ fs, 10 ≤ f.data.length) →
    s.photoOffset + ((fs.map Inbound.data).flatten).length ≤ MAX_PHOTO_SIZE →
    (deliver s fs).1.photoOffset = s.photoOffset + ((fs.map Inbound.data).flatten).length ∧
    readBytes (deliver s fs).1.photoBuffer (deliver s fs).1.photoOffset
      = readBytes s.photoBuffer s.photoOffset ++ (fs.map Inbound.data).flatten ∧
    (deliver s fs).1.photoSize = s.photoSize ∧
    handedOver (deliver s fs).2 = [] := by
  induction fs with
  | nil => intro s _ _; simp [deliver, handedOver]
  | cons f fs ih =>
    intro s h10 hfit
    simp only [List.map_cons, List.flatten_cons, List.length_append] at hfit
    have hf : 10 ≤ f.data.length := h10 f (List.mem_cons_self _ _)
    have hstep := onReceive_data f.env s f.mac f.data hf (by omega)
    have ih' := ih (onReceive f.env s f.mac f.data).1
      (fun g hg => h10 g (List.mem_cons_of_mem _ hg))
      (by rw [hstep]; simp only; omega)
    simp only [deliver, List.map_cons, List.flatten_cons, List.length_append]
    obtain ⟨h1, h2, h3, h4⟩ := ih'
    refine ⟨?_, ?_, ?_, ?_⟩
    · rw [h1, hstep]; simp only; omega
    · rw [h2, hstep]; simp only
      rw [readBytes_memcpy_append, List.append_assoc]
    · rw [h3, hstep]
    · rw [handedOver_append, h4, hstep]; simp [handedOver, Effect.image]

theorem slice_length (buf : List Byte) (off n : Nat) (h : off + n ≤ buf.length) :
    (slice buf off n).length = n := by
  simp [slice]
  omega

theorem slice_append_drop (buf : List Byte) (off n : Nat) :
    slice buf off n ++ buf.drop (off + n) = buf.drop off := by
  have h : buf.drop (off + n) = (buf.drop off).drop n := by
    rw [List.drop_drop]
  rw [h, slice, List.take_append_drop]

/-- With a transport that accepts every frame the chunk loop of the sender finishes, and its
frames are consecutive slices that make up the rest of the frame buffer. -/
theorem chunkLoop_accepting (M : Nat) (buf : List Byte) (hM : 1 ≤ M) :
    ∀ (fuel sent call : Nat), buf.length - sent ≤ fuel → sent ≤ buf.length →
    ∃ sends, Cam.chunkLoop M buf (fun _ => true) fuel sent call = some (sends, buf.length) ∧
      (sends.map Cam.Send.frame).flatten = buf.drop sent ∧
      (10 ≤ M → ((buf.length - sent) % M = 0 ∨ 10 ≤ (buf.length - sent) % M) →
        ∀ x ∈ sends, 10 ≤ x.frame.length) := by
  intro fuel
  induction fuel with
  | zero =>
    intro sent call hfuel hsent
    have : sent = buf.length := by omega
    subst this
    refine ⟨[], ?_, ?_, ?_⟩
    · simp [Cam.chunkLoop]
    · simp
    · intro _ _ x hx; simp at hx
  | succ fuel ih =>
    intro sent call hfuel hsent
    by_cases hlt : sent < buf.length
    · have hc1 : 1 ≤ min M (buf.length - sent) := by omega
      obtain ⟨sends, hrun, hcat, hlen⟩ :=
        ih (sent + min M (buf.length - sent)) (call + 1) (by omega) (by omega)
      refine ⟨{ frame := slice buf sent (min M (buf.length - sent)), ok := true } :: sends,
        ?_, ?_, ?_⟩
      · simp only [Cam.chunkLoop, if_pos hlt, if_true, hrun]
      · simp only [List.map_cons, List.flatten_cons, hcat]
        exact slice_append_drop buf sent _
      · intro h10 hrem x hx
        rcases List.mem_cons.mp hx with rfl | hx
        · simp only
          rw [slice_length buf sent _ (by omega)]
          by_cases hfull : M ≤ buf.length - sent
          · omega
          · have : (buf.length - sent) % M = buf.length - sent := Nat.mod_eq_of_lt (by omega)
            omega
        · refine hlen h10 ?_ x hx
          by_cases hfull : M ≤ buf.length - sent
          · have e1 : min M (buf.length - sent) = M := by omega
            have e2 : buf.length - (sent + M) = buf.length - sent - M := by omega
            have e3 : (buf.length - sent - M) % M = (buf.length - sent) % M :=
              (Nat.mod_eq_sub_mod hfull).symm
            rw [e1, e2, e3]; exact hrem
          · have e1 : min M (buf.length - sent) = buf.length - sent := by omega
            rw [e1]
            have : buf.length - (sent + (buf.length - sent)) = 0 := by omega
            rw [this]; left; exact Nat.zero_mod M
    · have : sent = buf.length := by omega
      subst this
      refine ⟨[], ?_, ?_, ?_⟩
      · simp [Cam.chunkLoop]
      · simp
      · intro _ _ x hx; simp at hx

theorem decimalCore_length_le (k : Nat) : ∀ (fuel n : Nat) (acc : List Byte),
    n < 10 ^ (k + 1) → (decimalCore fuel n acc).length ≤ acc.length + (k + 1) := by
  induction k with
  | zero =>
    intro fuel n acc h
    cases fuel with
    | zero => simp [decimalCore]
    | succ fuel =>
      have h0 : n / 10 = 0 := by omega
      simp [decimalCore, h0]
  | succ k ih =>
    intro fuel n acc h
    cases fuel with
    | zero => simp only [decimalCore]; omega
    | succ fuel =>
      by_cases h0 : n / 10 = 0
      · simp only [decimalCore, if_pos h0, List.length_cons]; omega
      · have hdiv : n / 10 < 10 ^ (k + 1) := by
          apply Nat.div_lt_of_lt_mul
          rw [← pow_succ']; exact h
        have := ih fuel (n / 10) ((48 + n % 10) :: acc) hdiv
        simp only [decimalCore, if_neg h0]
        simp only [List.length_cons] at this
        omega

theorem decimal_length_le_three (n : Nat) (h : n ≤ 999) : (decimal n).length ≤ 3 := by
  have := decimalCore_length_le 2 (n + 1) n [] (by norm_num; omega)
  simpa [decimal] using this

theorem inboundOf_data (env : Env) (mac : List Byte) (frames : List (List Byte)) :
    (Base.inboundOf env mac frames).map Inbound.data = frames := by
  induction frames with
  | nil => rfl
  | cons d ds ih =>
    simp only [Base.inboundOf, List.map_cons, List.cons.injEq, true_and] at ih ⊢
    exact ih

theorem deliver_append (a b : List Inbound) : ∀ (s : State),
    deliver s (a ++ b) =
      ((deliver (deliver s a).1 b).1, (deliver s a).2 ++ (deliver (deliver s a).1 b).2) := by
  induction a with
  | nil => intro s; simp [deliver]
  | cons f a ih => intro s; simp [deliver, ih, List.append_assoc]

theorem deliver_singleton (s : State) (f : Inbound) :
    deliver s [f] = onReceive f.env s f.mac f.data := by
  simp [deliver]

/-- Data chunks of at least ten bytes followed by END, delivered to a receiver whose offset is
zero: the concatenation of the chunks is handed over. -/
theorem deliver_chunks_END (s : State) (fs : List Inbound) (chunks : List (List Byte))
    (hs : s.photoOffset = 0) (hfs : fs.map Inbound.data = chunks ++ [END])
    (h10 : ∀ c ∈ chunks, 10 ≤ c.length) (hpos : 0 < chunks.flatten.length)
    (hcap : chunks.flatten.length ≤ MAX_PHOTO_SIZE) :
    handedOver (deliver s fs).2 = [chunks.flatten] ∧ (deliver s fs).1.photoOffset = 0 := by
  obtain ⟨fs1, fs2, rfl, h1, h2⟩ := List.map_eq_append_iff.mp hfs
  obtain ⟨fE, rfl, hE⟩ : ∃ fE, fs2 = [fE] ∧ fE.data = END := by
    cases fs2 with
    | nil => simp at h2
    | cons fE r =>
      cases r with
      | nil => exact ⟨fE, rfl, by simpa using h2⟩
      | cons g r => simp at h2
  have hd := deliver_data fs1 s
    (fun f hf => h10 f.data (h1 ▸ List.mem_map_of_mem Inbound.data hf))
    (by rw [h1, hs]; omega)
  rw [h1, hs, Nat.zero_add] at hd
  obtain ⟨ho, hb, _, hh⟩ := hd
  rw [deliver_append, deliver_singleton, hE, onReceive_END]
  have hsave := savePhoto_handedOver fE.env (deliver s fs1).1 (by omega)
  simp only [handedOver_append, hh, List.nil_append]
  constructor
  · have : handedOver (Effect.logComplete :: (savePhoto fE.env (deliver s fs1).1).2)
        = handedOver (savePhoto fE.env (deliver s fs1).1).2 := by
      simp [handedOver, Effect.image]
    rw [this, hsave.1, hb]
    simp [readBytes]
  · rw [hsave.2]

theorem sendPhotoWith_accepting (M fuel : Nat) (P : List Byte) (hM : 1 ≤ M)
    (hfuel : P.length ≤ fuel) :
    ∃ chunks : List (List Byte),
      (Cam.sendPhotoWith M (some P) (fun _ => true) fuel).map
          (fun r => (r.1.map Cam.Send.frame, r.2))
        = some ((START ++ decimal P.length) :: chunks ++ [END], P.length) ∧
      chunks.flatten = P ∧
      (10 ≤ M → (P.length % M = 0 ∨ 10 ≤ P.length % M) → ∀ c ∈ chunks, 10 ≤ c.length) := by
  obtain ⟨sends, hrun, hcat, hlen⟩ := chunkLoop_accepting M P hM fuel 0 1 (by omega) (by omega)
  refine ⟨sends.map Cam.Send.frame, ?_, by simpa using hcat, ?_⟩
  · simp [Cam.sendPhotoWith, hrun]
  · intro h10 hlast c hc
    obtain ⟨x, hx, rfl⟩ := List.mem_map.mp hc
    exact hlen h10 (by simpa using hlast) x hx

theorem inboundOf_append (env : Env) (mac : List Byte) (a b : List (List Byte)) :
    inboundOf env mac (a ++ b) = inboundOf env mac a ++ inboundOf env mac b := by
  simp [inboundOf]

theorem onReceive_offset_le (env : Env) (s : State) (mac data : List Byte)
    (hs : s.photoOffset ≤ MAX_PHOTO_SIZE) :
    (onReceive env s mac data).1.photoOffset ≤ MAX_PHOTO_SIZE := by
  unfold onReceive savePhoto
  simp only
  split_ifs <;> simp_all

theorem onReceive_beyond (env : Env) (s : State) (mac data : List Byte)
    (hs : s.photoOffset ≤ MAX_PHOTO_SIZE) (hlen : data.length < 2 ^ 31)
    (i : Nat) (hi : MAX_PHOTO_SIZE ≤ i) :
    (onReceive env s mac data).1.photoBuffer i = s.photoBuffer i := by
  have hM : MAX_PHOTO_SIZE = 50000 := rfl
  have hmod : (s.photoOffset + data.length) % 2 ^ 32 = s.photoOffset + data.length :=
    Nat.mod_eq_of_lt (by omega)
  unfold onReceive savePhoto
  simp only [hmod]
  split_ifs <;> try rfl
  simp only
  exact memcpy_outside _ _ _ _ (Or.inr (by omega))

theorem deliver_invariant (fs : List Inbound) : ∀ (s : State),
    s.photoOffset ≤ MAX_PHOTO_SIZE →
    (deliver s fs).1.photoOffset ≤ MAX_PHOTO_SIZE ∧
    ((∀ f ∈ fs, f.data.length < 2 ^ 31) →
      ∀ i, MAX_PHOTO_SIZE ≤ i → (deliver s fs).1.photoBuffer i = s.photoBuffer i) := by
  induction fs with
  | nil => intro s hs; exact ⟨hs, fun _ _ _ => rfl⟩
  | cons f fs ih =>
    intro s hs
    have h1 := onReceive_offset_le f.env s f.mac f.data hs
    obtain ⟨ih1, ih2⟩ := ih (onReceive f.env s f.mac f.data).1 h1
    refine ⟨ih1, ?_⟩
    intro hlen i hi
    simp only [deliver]
    rw [ih2 (fun g hg => hlen g (List.mem_cons_of_mem _ hg)) i hi]
    exact onReceive_beyond f.env s f.mac f.data hs (hlen f (List.mem_cons_self _ _)) i hi

theorem udp_chunk_eq (buf : List Byte) (i : Nat) :
    CamUdp.chunk buf i = (buf.drop (i * 1400)).take 1400 := by
  simp only [CamUdp.chunk, slice, CamUdp.chunkSize]
  by_cases h : 1400 ≤ buf.length - i * 1400
  · rw [Nat.min_eq_left h]
  · have h2 : min 1400 (buf.length - i * 1400) = buf.length - i * 1400 := by omega
    rw [h2, List.take_of_length_le (by simp), List.take_of_length_le (by simp; omega)]

theorem udp_chunk_length (buf : List Byte) (i : Nat) :
    (CamUdp.chunk buf i).length = min 1400 (buf.length - i * 1400) := by
  simp [CamUdp.chunk, slice, CamUdp.chunkSize]

theorem udp_chunks_flatten_take (buf : List Byte) (k : Nat) :
    ((List.range k).map (CamUdp.chunk buf)).flatten = buf.take (k * 1400) := by
  induction k with
  | zero => simp
  | succ k ih =>
    rw [List.range_succ, List.map_append, List.flatten_append, ih]
    simp only [List.map_cons, List.map_nil, List.flatten_cons, List.flatten_nil,
      List.append_nil]
    rw [udp_chunk_eq, Nat.succ_mul, List.take_add]

theorem totalChunks_bounds (n : Nat) :
    n ≤ CamUdp.totalChunks n * 1400 ∧ CamUdp.totalChunks n * 1400 < n + 1400 := by
  simp only [CamUdp.totalChunks, CamUdp.chunkSize]
  omega

/-! ## C1: round trip from the ESP-NOW sender to the base station -/

/-- C1, as stated, fails on the code.  First input: a payload of 3500 zero bytes with chunk
size 1400, delivered to the receiver after start-up.  The Begin frame "START:3500" is 10 bytes
long, so `onReceive` does not take it for a control packet (`len < 10`) but copies it into the
buffer as data: the image handed over at "END" is the 3510 bytes "START:3500" followed by the
payload, not the payload.  Second input: the 25 bytes 0..24 with chunk size 10.  The last
chunk is 5 bytes long, is taken for a control packet and dropped: the image handed over is
the first 20 bytes only. -/
theorem c1_round_trip_counterexample :
    ((Cam.sendPhotoWith 1400 (some (List.replicate 3500 0)) (fun _ => true) 3500).map
        (fun r => Base.handedOver
          (Base.deliver Base.init (Base.inboundOf ⟨0, true⟩ [] (r.1.map Cam.Send.frame))).2)
      = some [[83, 84, 65, 82, 84, 58, 51, 53, 48, 48] ++ List.replicate 3500 0]
      ∧ [83, 84, 65, 82, 84, 58, 51, 53, 48, 48] ++ List.replicate 3500 0
          ≠ List.replicate 3500 0)
    ∧ (Cam.sendPhotoWith 10 (some (List.range 25)) (fun _ => true) 25).map
        (fun r => Base.handedOver
          (Base.deliver Base.init (Base.inboundOf ⟨0, true⟩ [] (r.1.map Cam.Send.frame))).2)
      = some [List.range 20] := by
  refine ⟨⟨?_, ?_⟩, by decide⟩
  · obtain ⟨chunks, hrun, hcat, hlen⟩ :=
      sendPhotoWith_accepting 1400 3500 (List.replicate 3500 0) (by decide)
        (by rw [List.length_replicate])
    have h10 := hlen (by decide) (by rw [List.length_replicate]; decide)
    have hdec : START ++ decimal (List.replicate 3500 (0 : Byte)).length
        = [83, 84, 65, 82, 84, 58, 51, 53, 48, 48] := by
      rw [List.length_replicate]; decide
    rw [hdec] at hrun
    cases hsend : Cam.sendPhotoWith 1400 (some (List.replicate 3500 0)) (fun _ => true) 3500 with
    | none => rw [hsend] at hrun; cases hrun
    | some r =>
      rw [hsend] at hrun
      simp only [Option.map_some', Option.some.injEq, Prod.mk.injEq] at hrun ⊢
      have hd := deliver_chunks_END Base.init
        (Base.inboundOf ⟨0, true⟩ [] (r.1.map Cam.Send.frame))
        ([83, 84, 65, 82, 84, 58, 51, 53, 48, 48] :: chunks) rfl
        (by rw [inboundOf_data, hrun.1])
        (by
          intro c hc
          rcases List.mem_cons.mp hc with rfl | hc
          · decide
          · exact h10 c hc)
        (by simp)
        (by
          rw [List.flatten_cons, hcat, List.length_append, List.length_replicate]
          decide)
      rw [hd.1, List.flatten_cons, hcat]
  · intro h
    have := congrArg List.length h
    rw [List.length_append, List.length_replicate] at this
    simp at this

/-- C1, amended.  For every payload `P` with `0 < len(P) ≤ MAX_PHOTO_SIZE` and every chunk
size `M ≥ 10` for which the last chunk has at least 10 bytes (`len(P) % M` is 0 or at least
10), `sendPhoto` with a transport that accepts every frame finishes (with fuel `len(P)` or
more) having sent "START:" + decimal(len(P)), chunks whose concatenation is `P`, then "END",
and `sent = len(P)`.  Delivering the chunks and "END" to a receiver with `photoOffset = 0`
hands over exactly `P`; and when `len(P) ≤ 999` (a Begin frame shorter than 10 bytes),
delivering the whole sequence, Begin included, to a receiver in any state hands over
exactly `P`. -/
theorem c1_round_trip_amended (P : List Byte) (M fuel : Nat)
    (hP : 0 < P.length) (hcap : P.length ≤ Base.MAX_PHOTO_SIZE) (hM : 10 ≤ M)
    (hlast : P.length % M = 0 ∨ 10 ≤ P.length % M) (hfuel : P.length ≤ fuel) :
    ∃ chunks : List (List Byte),
      (Cam.sendPhotoWith M (some P) (fun _ => true) fuel).map
          (fun r => (r.1.map Cam.Send.frame, r.2))
        = some ((START ++ decimal P.length) :: chunks ++ [END], P.length) ∧
      chunks.flatten = P ∧
      (∀ (s : Base.State) (fs : List Base.Inbound), s.photoOffset = 0 →
        fs.map Base.Inbound.data = chunks ++ [END] →
        Base.handedOver (Base.deliver s fs).2 = [P]) ∧
      (P.length ≤ 999 → ∀ (s : Base.State) (fs : List Base.Inbound),
        fs.map Base.Inbound.data = (START ++ decimal P.length) :: chunks ++ [END] →
        Base.handedOver (Base.deliver s fs).2 = [P]) := by
  obtain ⟨chunks, hrun, hcat, hlen⟩ := sendPhotoWith_accepting M fuel P (by omega) hfuel
  have h10 := hlen hM hlast
  refine ⟨chunks, hrun, hcat, ?_, ?_⟩
  · intro s fs hs hfs
    have := (deliver_chunks_END s fs chunks hs hfs h10 (by rw [hcat]; exact hP)
      (by rw [hcat]; exact hcap)).1
    rw [this, hcat]
  · intro hshort s fs hfs
    cases fs with
    | nil => simp at hfs
    | cons fB fs =>
      simp only [List.map_cons, List.cons_append, List.cons.injEq] at hfs
      obtain ⟨hB, hrest⟩ := hfs
      have hBlen : fB.data.length < 10 := by
        have := decimal_length_le_three P.length hshort
        rw [hB, List.length_append]
        have : START.length = 6 := rfl
        omega
      have hBpre : fB.data.take 6 = START := by
        rw [hB, List.take_append_of_le_length (by decide)]
        rfl
      have hstep := onReceive_begin fB.env s fB.mac fB.data hBlen hBpre
      have := (deliver_chunks_END (onReceive fB.env s fB.mac fB.data).1 fs chunks
        (by rw [hstep]) hrest h10 (by rw [hcat]; exact hP) (by rw [hcat]; exact hcap)).1
      simp only [deliver, handedOver_append, this, hcat]
      rw [hstep]
      simp [handedOver, Effect.image]

/-- Witness for C1 (amended): the chunks and "END" of 3500 zero bytes sent with chunk size
1400 hand over the payload when the receiver starts at offset zero, and the whole frame
sequence for 30 bytes sent with chunk size 10 hands over the payload. -/
theorem c1_round_trip_amended_witness :
    (Cam.sendPhotoWith 1400 (some (List.replicate 3500 0)) (fun _ => true) 3500).map
        (fun r => Base.handedOver
          (Base.deliver Base.init
            (Base.inboundOf ⟨0, true⟩ [] (r.1.map Cam.Send.frame).tail)).2)
      = some [List.replicate 3500 0]
    ∧ (Cam.sendPhotoWith 10 (some (List.replicate 30 7)) (fun _ => true) 30).map
        (fun r => Base.handedOver
          (Base.deliver ⟨fun _ => 0, 0, 400⟩
            (Base.inboundOf ⟨0, false⟩ [] (r.1.map Cam.Send.frame))).2)
      = some [List.replicate 30 7] := by
  constructor
  · obtain ⟨chunks, hrun, _, hrt, _⟩ :=
      c1_round_trip_amended (List.replicate 3500 0) 1400 3500
        (by rw [List.length_replicate]; decide)
        (by rw [List.length_replicate]; decide)
        (by decide)
        (by rw [List.length_replicate]; decide)
        (by rw [List.length_replicate])
    cases hsend : Cam.sendPhotoWith 1400 (some (List.replicate 3500 0)) (fun _ => true) 3500 with
    | none => rw [hsend] at hrun; cases hrun
    | some r =>
      rw [hsend] at hrun
      simp only [Option.map_some', Option.some.injEq, Prod.mk.injEq] at hrun ⊢
      exact hrt Base.init _ rfl (by rw [inboundOf_data, hrun.1]; rfl)
  · obtain ⟨chunks, hrun, _, _, hrt⟩ :=
      c1_round_trip_amended (List.replicate 30 7) 10 30
        (by decide) (by decide) (by decide) (by decide) (by decide)
    cases hsend : Cam.sendPhotoWith 10 (some (List.replicate 30 7)) (fun _ => true) 30 with
    | none => rw [hsend] at hrun; cases hrun
    | some r =>
      rw [hsend] at hrun
      simp only [Option.map_some', Option.some.injEq, Prod.mk.injEq] at hrun ⊢
      exact hrt (by decide) _ _ (by rw [inboundOf_data, hrun.1])

/-! ## C2, C3: the chunk loop of the UDP sender -/

/-- C2.  For every payload `P` (of any length, zero included) `sendPhotoUDP` sends the
header, the data chunks and "END"; the data chunks concatenated in order are exactly `P`;
chunk `i` is the slice of `P` that starts at `i * 1400` and has length
`min(1400, len(P) - i * 1400)`; and there is a data chunk if and only if `P` is not empty. -/
theorem c2_split_reproduces_payload (P : List Byte) :
    CamUdp.sendPhotoUDP true (some P) = CamUdp.header P :: CamUdp.chunks P ++ [END] ∧
    (CamUdp.chunks P).flatten = P ∧
    (∀ i, i < CamUdp.totalChunks P.length →
      (CamUdp.chunks P)[i]? = some (slice P (i * 1400) (min 1400 (P.length - i * 1400))) ∧
      (slice P (i * 1400) (min 1400 (P.length - i * 1400))).length
        = min 1400 (P.length - i * 1400)) ∧
    (CamUdp.chunks P ≠ [] ↔ P ≠ []) := by
  refine ⟨rfl, ?_, ?_, ?_⟩
  · rw [CamUdp.chunks, udp_chunks_flatten_take]
    exact List.take_of_length_le (totalChunks_bounds P.length).1
  · intro i hi
    constructor
    · simp [CamUdp.chunks, hi, CamUdp.chunk, CamUdp.chunkSize]
    · simp [slice]
  · have hb := totalChunks_bounds P.length
    have h1 : CamUdp.chunks P ≠ [] ↔ (CamUdp.chunks P).length ≠ 0 :=
      not_congr List.length_eq_zero.symm
    have h2 : P ≠ [] ↔ P.length ≠ 0 := not_congr List.length_eq_zero.symm
    rw [h1, h2]
    simp only [CamUdp.chunks, List.length_map, List.length_range]
    omega

/-- C3.  For every payload of length `N > 0`, `totalChunks = (N + 1400 - 1) / 1400` is the
ceiling of `N / 1400`, the loop emits exactly `totalChunks` data chunks, chunk `i` has length
`min(1400, N - i * 1400)`, every chunk but the last has length exactly 1400, and the last has
a length between 1 and 1400. -/
theorem c3_chunk_count (P : List Byte) (hP : 0 < P.length) :
    CamUdp.totalChunks P.length = ⌈(P.length : ℚ) / 1400⌉₊ ∧
    (CamUdp.chunks P).length = CamUdp.totalChunks P.length ∧
    (CamUdp.chunks P).map List.length
      = (List.range (CamUdp.totalChunks P.length)).map
          (fun i => min 1400 (P.length - i * 1400)) ∧
    (∀ i, i + 1 < CamUdp.totalChunks P.length → (CamUdp.chunk P i).length = 1400) ∧
    1 ≤ (CamUdp.chunk P (CamUdp.totalChunks P.length - 1)).length ∧
    (CamUdp.chunk P (CamUdp.totalChunks P.length - 1)).length ≤ 1400 := by
  have hb := totalChunks_bounds P.length
  have hk : 1 ≤ CamUdp.totalChunks P.length := by omega
  refine ⟨?_, ?_, ?_, ?_, ?_, ?_⟩
  · symm
    rw [Nat.ceil_eq_iff (by omega)]
    constructor
    · rw [lt_div_iff₀ (by norm_num)]
      have : (CamUdp.totalChunks P.length - 1) * 1400 < P.length := by omega
      exact_mod_cast this
    · rw [div_le_iff₀ (by norm_num)]
      exact_mod_cast hb.1
  · simp [CamUdp.chunks]
  · simp only [CamUdp.chunks, List.map_map]
    apply List.map_congr_left
    intro i _
    exact udp_chunk_length P i
  · intro i hi
    have : (i + 1) * 1400 ≤ (CamUdp.totalChunks P.length - 1) * 1400 :=
      Nat.mul_le_mul_right _ (by omega)
    rw [udp_chunk_length]
    omega
  · rw [udp_chunk_length]
    omega
  · rw [udp_chunk_length]
    omega

/-- Witness for C3: a payload of 3500 bytes is sent as 3 chunks of sizes 1400, 1400, 700. -/
theorem c3_chunk_count_witness :
    0 < (List.replicate 3500 (0 : Byte)).length ∧
    CamUdp.totalChunks 3500 = 3 ∧
    (3 : ℕ) = ⌈((3500 : ℕ) : ℚ) / 1400⌉₊ ∧
    (CamUdp.chunks (List.replicate 3500 0)).map List.length = [1400, 1400, 700] := by
  have h := c3_chunk_count (List.replicate 3500 0) (by rw [List.length_replicate]; decide)
  rw [List.length_replicate] at h
  have h3 : CamUdp.totalChunks 3500 = 3 := by decide
  refine ⟨by rw [List.length_replicate]; decide, h3, ?_, h.2.2.1.trans (by decide)⟩
  rw [← h3]
  exact h.1

/-! ## C4 to C10: the reassembly state machine of the base station -/

/-- C4.  From a start-up state (`photoOffset = 0`, any buffer contents), after any sequence
of inbound frames of any content and length, `photoOffset ≤ MAX_PHOTO_SIZE`; and when every
frame length fits the `int` parameter `len` (below `2 ^ 31`), no buffer position at or beyond
`MAX_PHOTO_SIZE` has been written: those cells still hold what they held at start-up. -/
theorem c4_buffer_bound (s0 : State) (fs : List Inbound) (h0 : s0.photoOffset = 0) :
    (deliver s0 fs).1.photoOffset ≤ MAX_PHOTO_SIZE ∧
    ((∀ f ∈ fs, f.data.length < 2 ^ 31) →
      ∀ i, MAX_PHOTO_SIZE ≤ i → (deliver s0 fs).1.photoBuffer i = s0.photoBuffer i) :=
  deliver_invariant fs s0 (by rw [h0]; exact Nat.zero_le _)

/-- Witness for C4: a Begin frame and a data chunk delivered after start-up. -/
theorem c4_buffer_bound_witness :
    (deliver init (inboundOf ⟨0, true⟩ []
      [START ++ decimal 25, List.replicate 12 7])).1.photoOffset ≤ MAX_PHOTO_SIZE ∧
    ∀ i, MAX_PHOTO_SIZE ≤ i →
      (deliver init (inboundOf ⟨0, true⟩ []
        [START ++ decimal 25, List.replicate 12 7])).1.photoBuffer i = init.photoBuffer i :=
  have h := c4_buffer_bound init
    (inboundOf ⟨0, true⟩ [] [START ++ decimal 25, List.replicate 12 7]) rfl
  ⟨h.1, h.2 (by decide)⟩

/-- C5, as stated, fails on the code.  Input: the receiver after start-up and the Begin frame
for the declared length 50001, "START:50001".  The frame is 11 bytes long, so it is handled
as a data chunk: `photoOffset` goes from 0 to 11, the first 11 buffer bytes go from zero to
the bytes of the frame, and a 10-byte data chunk that follows is appended (offset 21). -/
theorem c5_begin_overflow_counterexample :
    START ++ decimal 50001 = [83, 84, 65, 82, 84, 58, 53, 48, 48, 48, 49] ∧
    (onReceive ⟨0, true⟩ init [] (START ++ decimal 50001)).1.photoOffset = 11 ∧
    readBytes (onReceive ⟨0, true⟩ init [] (START ++ decimal 50001)).1.photoBuffer 11
      = START ++ decimal 50001 ∧
    readBytes init.photoBuffer 11 = List.replicate 11 0 ∧
    (onReceive ⟨0, true⟩ (onReceive ⟨0, true⟩ init [] (START ++ decimal 50001)).1 []
      (List.replicate 10 7)).1.photoOffset = 21 := by
  decide

/-- C5, amended.  Begin has no capacity check and the receiver has no discarded condition:
every frame that `onReceive` decodes as Begin (shorter than 10 bytes, beginning "START:")
sets `photoOffset` to 0 and `photoSize` to the number `atoi` reads, whatever its value,
leaves the buffer contents unchanged, and a data chunk of 10 to `MAX_PHOTO_SIZE` bytes that
follows is appended at position 0. -/
theorem c5_begin_has_no_capacity_check (env env2 : Env) (s : State)
    (mac data mac2 d : List Byte)
    (hlen : data.length < 10) (hpre : data.take 6 = START)
    (h10 : 10 ≤ d.length) (hcap : d.length ≤ MAX_PHOTO_SIZE) :
    (onReceive env s mac data).1.photoOffset = 0 ∧
    (onReceive env s mac data).1.photoBuffer = s.photoBuffer ∧
    (onReceive env s mac data).1.photoSize = toUInt32 (atoi ((data ++ [0]).drop 6)) ∧
    (onReceive env2 (onReceive env s mac data).1 mac2 d).1.photoOffset = d.length ∧
    readBytes (onReceive env2 (onReceive env s mac data).1 mac2 d).1.photoBuffer d.length
      = d := by
  rw [onReceive_begin env s mac data hlen hpre]
  refine ⟨rfl, rfl, rfl, ?_⟩
  rw [onReceive_data env2 _ mac2 d h10 (by simp only [Nat.zero_add]; exact hcap)]
  simp only [Nat.zero_add]
  refine ⟨trivial, ?_⟩
  have := readBytes_memcpy_append s.photoBuffer 0 d
  rw [Nat.zero_add] at this
  rw [this]
  simp [readBytes]

/-- Witness for C5 (amended): the 8-byte frame "START:-1" handled at offset 400 resets the
offset and records a `photoSize` of `2 ^ 32 - 1`, far above the capacity; the 10-byte chunk
that follows is appended at position 0. -/
theorem c5_begin_has_no_capacity_check_witness :
    (onReceive ⟨0, true⟩ ⟨fun _ => 0, 0, 400⟩ [] [83, 84, 65, 82, 84, 58, 45, 49]).1.photoOffset
      = 0 ∧
    (onReceive ⟨0, true⟩ ⟨fun _ => 0, 0, 400⟩ [] [83, 84, 65, 82, 84, 58, 45, 49]).1.photoSize
      = 4294967295 ∧
    (onReceive ⟨1, true⟩
      (onReceive ⟨0, true⟩ ⟨fun _ => 0, 0, 400⟩ [] [83, 84, 65, 82, 84, 58, 45, 49]).1
      [] BASE_HELLO).1.photoOffset = 10 ∧
    readBytes (onReceive ⟨1, true⟩
      (onReceive ⟨0, true⟩ ⟨fun _ => 0, 0, 400⟩ [] [83, 84, 65, 82, 84, 58, 45, 49]).1
      [] BASE_HELLO).1.photoBuffer 10 = BASE_HELLO :=
  have h := c5_begin_has_no_capacity_check ⟨0, true⟩ ⟨1, true⟩ ⟨fun _ => 0, 0, 400⟩ []
    [83, 84, 65, 82, 84, 58, 45, 49] [] BASE_HELLO
    (by decide) (by decide) (by decide) (by decide)
  ⟨h.1, h.2.2.1.trans (by decide), h.2.2.2.1, h.2.2.2.2⟩

/-- C6.  For every receiver state and every data frame of length `s ≥ 10` with
`photoOffset + s > MAX_PHOTO_SIZE`, `onReceive` leaves `photoOffset` and the whole buffer
(indeed the whole state) as they were and does nothing else.  The 32-bit sum
`photoOffset + s` is assumed not to wrap, which holds whenever `photoOffset ≤ MAX_PHOTO_SIZE`
(every reachable state, C4) and `s` fits the `int` parameter `len`. -/
theorem c6_overflowing_chunk_is_atomic (env : Env) (s : State) (mac data : List Byte)
    (h10 : 10 ≤ data.length) (hwrap : s.photoOffset + data.length < 2 ^ 32)
    (hover : MAX_PHOTO_SIZE < s.photoOffset + data.length) :
    (onReceive env s mac data).1.photoOffset = s.photoOffset ∧
    (onReceive env s mac data).1.photoBuffer = s.photoBuffer ∧
    onReceive env s mac data = (s, []) := by
  rw [onReceive_data_reject env s mac data h10 hwrap hover]
  exact ⟨rfl, rfl, rfl⟩

/-- Witness for C6: a 10-byte chunk at offset 49995. -/
theorem c6_overflowing_chunk_is_atomic_witness :
    (onReceive ⟨0, true⟩ ⟨fun _ => 0, 0, 49995⟩ [] (List.replicate 10 7)).1.photoOffset = 49995 ∧
    (onReceive ⟨0, true⟩ ⟨fun _ => 0, 0, 49995⟩ [] (List.replicate 10 7)).1.photoBuffer
      = (fun _ => 0) ∧
    onReceive ⟨0, true⟩ ⟨fun _ => 0, 0, 49995⟩ [] (List.replicate 10 7)
      = (⟨fun _ => 0, 0, 49995⟩, []) :=
  c6_overflowing_chunk_is_atomic ⟨0, true⟩ ⟨fun _ => 0, 0, 49995⟩ [] (List.replicate 10 7)
    (by decide) (by decide) (by decide)

/-- C7, as stated, fails on the code.  Input: after start-up, 249 data chunks of 200 bytes
(offset 49800), then a chunk of 250 bytes, which is rejected (offset still 49800), then a
chunk of 100 bytes, then "END".  The 100-byte chunk is appended (offset 49900) and "END"
hands over an image of 49900 bytes: the rejected chunk did not abandon the session. -/
theorem c7_discarded_counterexample :
    (deliver init (inboundOf ⟨0, true⟩ []
      (List.replicate 249 (List.replicate 200 7)))).1.photoOffset = 49800 ∧
    (deliver init (inboundOf ⟨0, true⟩ []
      (List.replicate 249 (List.replicate 200 7)
        ++ [List.replicate 250 7]))).1.photoOffset = 49800 ∧
    (deliver init (inboundOf ⟨0, true⟩ []
      (List.replicate 249 (List.replicate 200 7)
        ++ [List.replicate 250 7, List.replicate 100 7]))).1.photoOffset = 49900 ∧
    (handedOver (deliver init (inboundOf ⟨0, true⟩ []
      ((List.replicate 249 (List.replicate 200 7)
        ++ [List.replicate 250 7, List.replicate 100 7]) ++ [END]))).2).map List.length
      = [49900] := by
  have h3 : (deliver init (inboundOf ⟨0, true⟩ []
      (List.replicate 249 (List.replicate 200 7)
        ++ [List.replicate 250 7, List.replicate 100 7]))).1.photoOffset = 49900 := by
    decide!
  have h4 : handedOver (deliver init (inboundOf ⟨0, true⟩ []
      (List.replicate 249 (List.replicate 200 7)
        ++ [List.replicate 250 7, List.replicate 100 7]))).2 = [] := by
    decide!
  refine ⟨by decide!, by decide!, h3, ?_⟩
  rw [inboundOf_append, deliver_append, handedOver_append, h4]
  have hE : inboundOf ⟨0, true⟩ [] [END] = [⟨⟨0, true⟩, [], END⟩] := rfl
  rw [hE, deliver_singleton, onReceive_END]
  have hs := (savePhoto_handedOver ⟨0, true⟩ (deliver init (inboundOf ⟨0, true⟩ []
      (List.replicate 249 (List.replicate 200 7)
        ++ [List.replicate 250 7, List.replicate 100 7]))).1 (by rw [h3]; decide)).1
  have hc : ∀ l : List Effect, handedOver (Effect.logComplete :: l) = handedOver l := by
    intro l; simp [handedOver, Effect.image]
  rw [hc, hs, h3]
  simp only [List.nil_append, List.map_cons, List.map_nil, readBytes_length]

/-- C7, amended.  The receiver keeps no discarded condition: a data chunk rejected because
`photoOffset + s > MAX_PHOTO_SIZE` leaves the state exactly as it was, so a data chunk
(length at least 10) delivered next that fits is appended at `photoOffset`, and an "END"
delivered next with `photoOffset > 0` hands over `photoBuffer[0..photoOffset)`. -/
theorem c7_no_discarded_condition (env1 env2 env3 : Env) (s : State)
    (mac1 mac2 mac3 d1 d2 : List Byte)
    (h1 : 10 ≤ d1.length) (hwrap : s.photoOffset + d1.length < 2 ^ 32)
    (hover : MAX_PHOTO_SIZE < s.photoOffset + d1.length)
    (h2 : 10 ≤ d2.length) (hfit : s.photoOffset + d2.length ≤ MAX_PHOTO_SIZE) :
    (onReceive env1 s mac1 d1).1 = s ∧
    (onReceive env2 (onReceive env1 s mac1 d1).1 mac2 d2).1.photoOffset
      = s.photoOffset + d2.length ∧
    readBytes (onReceive env2 (onReceive env1 s mac1 d1).1 mac2 d2).1.photoBuffer
        (s.photoOffset + d2.length)
      = readBytes s.photoBuffer s.photoOffset ++ d2 ∧
    (0 < s.photoOffset →
      handedOver (onReceive env3 (onReceive env1 s mac1 d1).1 mac3 END).2
        = [readBytes s.photoBuffer s.photoOffset]) := by
  rw [onReceive_data_reject env1 s mac1 d1 h1 hwrap hover]
  rw [onReceive_data env2 s mac2 d2 h2 hfit]
  refine ⟨rfl, rfl, readBytes_memcpy_append _ _ _, ?_⟩
  intro hpos
  rw [onReceive_END]
  have hs := (savePhoto_handedOver env3 s hpos).1
  simpa [handedOver, Effect.image] using hs

/-- Witness for C7 (amended): at offset 49800 a 250-byte chunk, then a 100-byte chunk. -/
theorem c7_no_discarded_condition_witness :
    (onReceive ⟨0, true⟩ ⟨fun _ => 0, 0, 49800⟩ [] (List.replicate 250 7)).1
      = ⟨fun _ => 0, 0, 49800⟩ ∧
    (onReceive ⟨1, true⟩ (onReceive ⟨0, true⟩ ⟨fun _ => 0, 0, 49800⟩ []
      (List.replicate 250 7)).1 [] (List.replicate 100 7)).1.photoOffset = 49900 ∧
    handedOver (onReceive ⟨2, true⟩ (onReceive ⟨0, true⟩ ⟨fun _ => 0, 0, 49800⟩ []
      (List.replicate 250 7)).1 [] END).2 = [readBytes (fun _ => 0) 49800] :=
  have h := c7_no_discarded_condition ⟨0, true⟩ ⟨1, true⟩ ⟨2, true⟩
    ⟨fun _ => 0, 0, 49800⟩ [] [] [] (List.replicate 250 7) (List.replicate 100 7)
    (by rw [List.length_replicate]; decide)
    (by rw [List.length_replicate]; decide)
    (by rw [List.length_replicate]; decide)
    (by rw [List.length_replicate]; decide)
    (by rw [List.length_replicate]; decide)
  ⟨h.1, h.2.1.trans (by rw [List.length_replicate]), h.2.2.2 (by decide)⟩

/-- C8 fails on the code at this input.  After start-up and two data chunks of 200 bytes
(`photoOffset = 400`), the Begin frame for `n = 3500`, "START:3500", is 10 bytes long: it is
not decoded as Begin but copied as data, so that `photoOffset` becomes 410 (not 0) and
`photoSize` stays 0 (not 3500). -/
theorem c8_superseding_begin_failing_input :
    START ++ decimal 3500 = [83, 84, 65, 82, 84, 58, 51, 53, 48, 48] ∧
    (deliver init (inboundOf ⟨0, true⟩ []
      [List.replicate 200 7, List.replicate 200 7])).1.photoOffset = 400 ∧
    (deliver init (inboundOf ⟨0, true⟩ []
      [List.replicate 200 7, List.replicate 200 7, START ++ decimal 3500])).1.photoOffset = 410 ∧
    (deliver init (inboundOf ⟨0, true⟩ []
      [List.replicate 200 7, List.replicate 200 7, START ++ decimal 3500])).1.photoSize = 0 := by
  decide!

/-- C9, as stated, fails on the code.  Input: the receiver after start-up (no Begin handled)
and a data chunk of ten bytes 7.  The chunk is copied to the buffer: `photoOffset` goes from
0 to 10 and the first buffer byte from 0 to 7. -/
theorem c9_idle_data_counterexample :
    (onReceive ⟨0, true⟩ init [] (List.replicate 10 7)).1.photoOffset = 10 ∧
    init.photoOffset = 0 ∧
    (onReceive ⟨0, true⟩ init [] (List.replicate 10 7)).1.photoBuffer 0 = 7 ∧
    init.photoBuffer 0 = 0 := by
  decide

/-- C9, amended.  The receiver keeps no idle condition.  Start-up and every "END" leave
`photoOffset = 0`, and in every state with `photoOffset = 0` a data chunk of length `s` with
`10 ≤ s ≤ MAX_PHOTO_SIZE` is copied to `photoBuffer[0..s)` and `photoOffset` becomes `s`. -/
theorem c9_data_without_begin_is_appended (env : Env) (s : State) (mac d : List Byte)
    (hs : s.photoOffset = 0) (h10 : 10 ≤ d.length) (hcap : d.length ≤ MAX_PHOTO_SIZE) :
    init.photoOffset = 0 ∧
    (∀ (e : Env) (t : State) (m : List Byte), (onReceive e t m END).1.photoOffset = 0) ∧
    (onReceive env s mac d).1.photoOffset = d.length ∧
    readBytes (onReceive env s mac d).1.photoBuffer d.length = d := by
  refine ⟨rfl, ?_, ?_⟩
  · intro e t m
    rw [onReceive_END]
    by_cases h0 : t.photoOffset = 0
    · simp only [savePhoto, if_pos h0]
      exact h0
    · rw [(savePhoto_handedOver e t (Nat.pos_of_ne_zero h0)).2]
  rw [onReceive_data env s mac d h10 (by rw [hs, Nat.zero_add]; exact hcap)]
  simp only [hs, Nat.zero_add]
  refine ⟨trivial, ?_⟩
  have := readBytes_memcpy_append s.photoBuffer 0 d
  rw [Nat.zero_add] at this
  rw [this]
  simp [readBytes]

/-- Witness for C9 (amended): the 10-byte beacon "BASE:HELLO" delivered after start-up. -/
theorem c9_data_without_begin_is_appended_witness :
    (onReceive ⟨0, true⟩ init [] BASE_HELLO).1.photoOffset = BASE_HELLO.length ∧
    readBytes (onReceive ⟨0, true⟩ init [] BASE_HELLO).1.photoBuffer BASE_HELLO.length
      = BASE_HELLO :=
  (c9_data_without_begin_is_appended ⟨0, true⟩ init [] BASE_HELLO rfl
    (by decide) (by decide)).2.2

/-- C10.  In every state with `photoOffset = k > 0`, handling the frame "END" hands over
exactly the `k` bytes `photoBuffer[0..k)`: written to the file when `SD.open` yields one,
dumped on the serial line otherwise; afterwards `photoOffset = 0` and the rest of the state
is unchanged. -/
theorem c10_completion (env : Env) (s : State) (mac : List Byte) (hk : 0 < s.photoOffset) :
    handedOver (onReceive env s mac END).2 = [readBytes s.photoBuffer s.photoOffset] ∧
    (onReceive env s mac END).2
      = (if env.sdOpen then
          [Effect.logComplete,
            Effect.fileWrite env.millis (readBytes s.photoBuffer s.photoOffset),
            Effect.logSaved env.millis s.photoOffset]
        else
          [Effect.logComplete, Effect.logSdFailed, Effect.logPhotoStart,
            Effect.serialWrite (readBytes s.photoBuffer s.photoOffset), Effect.logPhotoEnd]) ∧
    (readBytes s.photoBuffer s.photoOffset).length = s.photoOffset ∧
    (onReceive env s mac END).1 = { s with photoOffset := 0 } := by
  rw [onReceive_END]
  have hs := savePhoto_handedOver env s hk
  refine ⟨?_, ?_, readBytes_length _ _, hs.2⟩
  · simpa [handedOver, Effect.image] using hs.1
  · unfold savePhoto
    rw [if_neg (by omega)]
    cases env.sdOpen <;> rfl

/-- Witness for C10: "END" at offset 3 with no SD file dumps the three bytes on serial. -/
theorem c10_completion_witness :
    handedOver (onReceive ⟨5, false⟩ ⟨fun i => i + 1, 0, 3⟩ [] END).2 = [[1, 2, 3]] ∧
    (onReceive ⟨5, false⟩ ⟨fun i => i + 1, 0, 3⟩ [] END).1.photoOffset = 0 := by
  have h := c10_completion ⟨5, false⟩ ⟨fun i => i + 1, 0, 3⟩ [] (by decide)
  exact ⟨h.1.trans (by decide), by rw [h.2.2.2]⟩

/-! ## Auxiliary lemmas on the chunk loop under an arbitrary transport -/

theorem chunkLoop_final (M : Nat) (buf : List Byte) (results : Nat → Bool) :
    ∀ (fuel sent call : Nat) (sends : List Cam.Send) (final : Nat),
    Cam.chunkLoop M buf results fuel sent call = some (sends, final) → sent ≤ buf.length →
    final = buf.length := by
  intro fuel
  induction fuel with
  | zero =>
    intro sent call sends final h hle
    simp only [Cam.chunkLoop] at h
    split_ifs at h with hlt
    simp only [Option.some.injEq, Prod.mk.injEq] at h
    omega
  | succ fuel ih =>
    intro sent call sends final h hle
    simp only [Cam.chunkLoop] at h
    split_ifs at h with hlt hres
    · cases hrec : Cam.chunkLoop M buf results fuel (sent + min M (buf.length - sent))
          (call + 1) with
      | none => rw [hrec] at h; cases h
      | some r =>
        obtain ⟨t, f⟩ := r
        rw [hrec] at h
        simp only [Option.some.injEq, Prod.mk.injEq] at h
        rw [← h.2]
        exact ih _ _ _ _ hrec (by omega)
    · cases hrec : Cam.chunkLoop M buf results fuel sent (call + 1) with
      | none => rw [hrec] at h; cases h
      | some r =>
        obtain ⟨t, f⟩ := r
        rw [hrec] at h
        simp only [Option.some.injEq, Prod.mk.injEq] at h
        rw [← h.2]
        exact ih _ _ _ _ hrec hle
    · simp only [Option.some.injEq, Prod.mk.injEq] at h
      omega

/-- In the chunk loop a send that the transport rejects is followed by a send of the same
slice. -/
theorem chunkLoop_retry (M : Nat) (buf : List Byte) (results : Nat → Bool) :
    ∀ (fuel sent call : Nat) (sends : List Cam.Send) (final : Nat),
    Cam.chunkLoop M buf results fuel sent call = some (sends, final) →
    (∀ a, sends.head? = some a → a.frame = slice buf sent (min M (buf.length - sent))) ∧
    ∀ (i : Nat) (a : Cam.Send), sends[i]? = some a → a.ok = false →
      ∃ b, sends[i + 1]? = some b ∧ b.frame = a.frame := by
  intro fuel
  induction fuel with
  | zero =>
    intro sent call sends final h
    simp only [Cam.chunkLoop] at h
    split_ifs at h with hlt
    simp only [Option.some.injEq, Prod.mk.injEq] at h
    rw [← h.1]
    exact ⟨fun a ha => by simp at ha, fun i a ha => by simp at ha⟩
  | succ fuel ih =>
    intro sent call sends final h
    simp only [Cam.chunkLoop] at h
    split_ifs at h with hlt hres
    · cases hrec : Cam.chunkLoop M buf results fuel (sent + min M (buf.length - sent))
          (call + 1) with
      | none => rw [hrec] at h; cases h
      | some r =>
        obtain ⟨t, f⟩ := r
        rw [hrec] at h
        simp only [Option.some.injEq, Prod.mk.injEq] at h
        obtain ⟨_, ih2⟩ := ih _ _ _ _ hrec
        rw [← h.1]
        refine ⟨fun a ha => ?_, fun i a ha hok => ?_⟩
        · simp only [List.head?_cons, Option.some.injEq] at ha
          rw [← ha]
        · cases i with
          | zero =>
            simp only [List.getElem?_cons_zero, Option.some.injEq] at ha
            rw [← ha] at hok
            simp only [hres] at hok
            cases hok
          | succ i =>
            simp only [List.getElem?_cons_succ] at ha ⊢
            exact ih2 i a ha hok
    · cases hrec : Cam.chunkLoop M buf results fuel sent (call + 1) with
      | none => rw [hrec] at h; cases h
      | some r =>
        obtain ⟨t, f⟩ := r
        rw [hrec] at h
        simp only [Option.some.injEq, Prod.mk.injEq] at h
        obtain ⟨ih1, ih2⟩ := ih _ _ _ _ hrec
        rw [← h.1]
        refine ⟨fun a ha => ?_, fun i a ha hok => ?_⟩
        · simp only [List.head?_cons, Option.some.injEq] at ha
          rw [← ha]
        · cases i with
          | zero =>
            simp only [List.getElem?_cons_zero, Option.some.injEq] at ha
            simp only [Nat.zero_add, List.getElem?_cons_succ]
            have hfinal := chunkLoop_final M buf results fuel sent (call + 1) t f hrec
              (by omega)
            cases t with
            | nil =>
              cases fuel with
              | zero => simp [Cam.chunkLoop, hlt] at hrec
              | succ k =>
                simp only [Cam.chunkLoop, if_pos hlt] at hrec
                generalize (if results (call + 1) = true
                  then sent + min M (buf.length - sent) else sent) = next at hrec
                cases hk : Cam.chunkLoop M buf results k next (call + 1 + 1) with
                | none => rw [hk] at hrec; cases hrec
                | some r => rw [hk] at hrec; simp at hrec
            | cons b t =>
              refine ⟨b, by simp, ?_⟩
              rw [ih1 b (by simp), ← ha]
          | succ i =>
            simp only [List.getElem?_cons_succ] at ha ⊢
            exact ih2 i a ha hok
    · simp only [Option.some.injEq, Prod.mk.injEq] at h
      rw [← h.1]
      exact ⟨fun a ha => by simp at ha, fun i a ha => by simp at ha⟩

theorem chunksLeft_step (M r : Nat) (hM : 1 ≤ M) (hr : 0 < r) :
    (r - min M r + M - 1) / M + 1 = (r + M - 1) / M := by
  by_cases h : M ≤ r
  · have e1 : min M r = M := by omega
    have e2 : r + M - 1 = (r - M + M - 1) + M := by omega
    rw [e1, e2, Nat.add_div_right _ (by omega)]
  · have e1 : min M r = r := by omega
    have e2 : r - r + M - 1 = M - 1 := by omega
    have e3 : (M - 1) / M = 0 := Nat.div_eq_of_lt (by omega)
    have e4 : (r + M - 1) / M = 1 := by
      apply Nat.div_eq_of_lt_le <;> omega
    rw [e1, e2, e3, e4]

theorem chunksLeft_eq_zero (M r : Nat) (hM : 1 ≤ M) : (r + M - 1) / M = 0 ↔ r = 0 := by
  constructor
  · intro h
    by_contra hr
    have : 1 ≤ (r + M - 1) / M := by
      rw [Nat.le_div_iff_mul_le (by omega)]
      omega
    omega
  · intro h
    subst h
    exact Nat.div_eq_of_lt (by omega)

/-- The chunk loop has finished within `fuel` iterations exactly when the transport accepted,
among those `fuel` sends, as many as there are chunks left to send. -/
theorem chunkLoop_isSome_iff (M : Nat) (buf : List Byte) (results : Nat → Bool) (hM : 1 ≤ M) :
    ∀ (fuel sent call : Nat), sent ≤ buf.length →
    ((Cam.chunkLoop M buf results fuel sent call).isSome ↔
      (buf.length - sent + M - 1) / M ≤ Cam.accepted results call fuel) := by
  intro fuel
  induction fuel with
  | zero =>
    intro sent call hle
    simp only [Cam.chunkLoop, Cam.accepted, Nat.le_zero, chunksLeft_eq_zero _ _ hM]
    split_ifs with hlt
    · simp; omega
    · simp; omega
  | succ fuel ih =>
    intro sent call hle
    simp only [Cam.chunkLoop, Cam.accepted]
    by_cases hlt : sent < buf.length
    · have hstep := chunksLeft_step M (buf.length - sent) hM (by omega)
      simp only [if_pos hlt]
      by_cases hres : results call = true
      · simp only [hres, if_true]
        have hih := ih (sent + min M (buf.length - sent)) (call + 1) (by omega)
        have e : buf.length - (sent + min M (buf.length - sent))
            = buf.length - sent - min M (buf.length - sent) := by omega
        rw [e] at hih
        cases hrec : Cam.chunkLoop M buf results fuel (sent + min M (buf.length - sent))
            (call + 1) with
        | none =>
          rw [hrec] at hih
          simp only [Option.isSome_none, Bool.false_eq_true, false_iff] at hih ⊢
          omega
        | some r =>
          rw [hrec] at hih
          simp only [Option.isSome_some, true_iff] at hih ⊢
          omega
      · simp only [hres, Bool.false_eq_true, if_false]
        have hih := ih sent (call + 1) hle
        cases hrec : Cam.chunkLoop M buf results fuel sent (call + 1) with
        | none =>
          rw [hrec] at hih
          simp only [Option.isSome_none, Bool.false_eq_true, false_iff] at hih ⊢
          omega
        | some r =>
          rw [hrec] at hih
          simp only [Option.isSome_some, true_iff] at hih ⊢
          omega
    · have e : buf.length - sent = 0 := by omega
      simp only [if_neg hlt, Option.isSome_some, true_iff, e, Nat.zero_add]
      rw [Nat.div_eq_of_lt (by omega)]
      exact Nat.zero_le _

theorem chunkLoop_frame_length_le (M : Nat) (buf : List Byte) (results : Nat → Bool) :
    ∀ (fuel sent call : Nat) (sends : List Cam.Send) (final : Nat),
    Cam.chunkLoop M buf results fuel sent call = some (sends, final) →
    ∀ a ∈ sends, a.frame.length ≤ M := by
  intro fuel
  induction fuel with
  | zero =>
    intro sent call sends final h
    simp only [Cam.chunkLoop] at h
    by_cases hlt : sent < buf.length
    · rw [if_pos hlt] at h; cases h
    · rw [if_neg hlt] at h
      simp only [Option.some.injEq, Prod.mk.injEq] at h
      rw [← h.1]
      intro a ha
      simp at ha
  | succ fuel ih =>
    intro sent call sends final h
    simp only [Cam.chunkLoop] at h
    by_cases hlt : sent < buf.length
    · rw [if_pos hlt] at h
      generalize (if results call = true then sent + min M (buf.length - sent) else sent)
        = next at h
      cases hrec : Cam.chunkLoop M buf results fuel next (call + 1) with
      | none => rw [hrec] at h; cases h
      | some r =>
        obtain ⟨t, f⟩ := r
        rw [hrec] at h
        simp only [Option.some.injEq, Prod.mk.injEq] at h
        rw [← h.1]
        intro a ha
        rcases List.mem_cons.mp ha with rfl | ha
        · simp only [slice, List.length_take]
          omega
        · exact ih _ _ _ _ hrec a ha
    · rw [if_neg hlt] at h
      simp only [Option.some.injEq, Prod.mk.injEq] at h
      rw [← h.1]
      intro a ha
      simp at ha

/-! ## C11, C12: the declared length and the classification of frames -/

/-- C11.  The declared length `photoSize` is never read.  For two receiver states with the
same `photoBuffer` and `photoOffset` (whatever their `photoSize`), every inbound frame
produces the same effects and the same resulting `photoBuffer` and `photoOffset`; and "END"
with `0 < photoOffset` and `photoOffset ≠ photoSize` still hands over
`photoBuffer[0..photoOffset)`. -/
theorem c11_declared_length_is_never_read (env : Env) (s1 s2 : State) (mac data : List Byte)
    (hbuf : s1.photoBuffer = s2.photoBuffer) (hoff : s1.photoOffset = s2.photoOffset) :
    (onReceive env s1 mac data).2 = (onReceive env s2 mac data).2 ∧
    (onReceive env s1 mac data).1.photoBuffer = (onReceive env s2 mac data).1.photoBuffer ∧
    (onReceive env s1 mac data).1.photoOffset = (onReceive env s2 mac data).1.photoOffset ∧
    (0 < s1.photoOffset → s1.photoOffset ≠ s1.photoSize →
      handedOver (onReceive env s1 mac END).2 = [readBytes s1.photoBuffer s1.photoOffset]) := by
  obtain ⟨b1, z1, o1⟩ := s1
  obtain ⟨b2, z2, o2⟩ := s2
  simp only at hbuf hoff
  subst hbuf hoff
  refine ⟨?_, ?_, ?_, ?_⟩
  · unfold onReceive savePhoto
    simp only
    split_ifs <;> rfl
  · unfold onReceive savePhoto
    simp only
    split_ifs <;> rfl
  · unfold onReceive savePhoto
    simp only
    split_ifs <;> rfl
  · intro hpos _
    rw [onReceive_END]
    have hs := (savePhoto_handedOver env ⟨b1, z1, o1⟩ hpos).1
    have hc : ∀ l : List Effect, handedOver (Effect.logComplete :: l) = handedOver l := by
      intro l; simp [handedOver, Effect.image]
    rw [hc, hs]

/-- Witness for C11: two states that differ in `photoSize` only (100 and 3), with three bytes
received, handling "END" with no SD file. -/
theorem c11_declared_length_is_never_read_witness :
    (onReceive ⟨5, false⟩ ⟨fun i => i + 1, 100, 3⟩ [] END).2
      = (onReceive ⟨5, false⟩ ⟨fun i => i + 1, 3, 3⟩ [] END).2 ∧
    handedOver (onReceive ⟨5, false⟩ ⟨fun i => i + 1, 100, 3⟩ [] END).2 = [[1, 2, 3]] :=
  have h := c11_declared_length_is_never_read ⟨5, false⟩ ⟨fun i => i + 1, 100, 3⟩
    ⟨fun i => i + 1, 3, 3⟩ [] END rfl rfl
  ⟨h.1, (h.2.2.2 (by decide) (by decide)).trans (by decide)⟩

/-- C12 fails on the code at this input.  The frame "START:30000" (11 bytes, as `sendPhoto`
formats it for a photo of 30000 bytes) begins with "START:", but `onReceive` only looks for
the prefix in frames shorter than 10 bytes: after start-up the frame is copied into the
buffer as a data chunk (`photoOffset = 11`, one dot logged), `photoSize` stays 0 and no
"Receiving photo" line is logged. -/
theorem c12_start_prefix_failing_input :
    START ++ decimal 30000 = [83, 84, 65, 82, 84, 58, 51, 48, 48, 48, 48] ∧
    (START ++ decimal 30000).take 6 = START ∧
    (onReceive ⟨0, true⟩ init [] (START ++ decimal 30000)).2 = [Effect.logDot] ∧
    (onReceive ⟨0, true⟩ init [] (START ++ decimal 30000)).1.photoOffset = 11 ∧
    (onReceive ⟨0, true⟩ init [] (START ++ decimal 30000)).1.photoSize = 0 ∧
    readBytes (onReceive ⟨0, true⟩ init [] (START ++ decimal 30000)).1.photoBuffer 11
      = START ++ decimal 30000 := by
  refine ⟨by decide, by decide, rfl, by decide, by decide, by decide⟩

/-! ## C15, C16: discovery of the base station -/

/-- C15.  For every sender state with `baseFound = false` and every 6-byte originator
address `m`, handling a frame that matches the announcement signature (longer than 5 bytes,
first five bytes "BASE:") sets `baseFound = true` and `baseMacAddress = m`; the beacon
"BASE:HELLO" that the base broadcasts is such a frame. -/
theorem c15_discovery_resolves (s : CamAuto.State) (m data : List Byte)
    (_hfound : s.baseFound = false) (hm : m.length = 6)
    (hlen : 5 < data.length) (hsig : data.take 5 = BASE) :
    (CamAuto.onReceive s m data).baseFound = true ∧
    (CamAuto.onReceive s m data).baseMacAddress = m ∧
    (CamAuto.onReceive s m BASE_HELLO).baseFound = true ∧
    (CamAuto.onReceive s m BASE_HELLO).baseMacAddress = m := by
  have hm6 : m.take 6 = m := List.take_of_length_le (by omega)
  have h1 : CamAuto.onReceive s m data = { baseMacAddress := m, baseFound := true } := by
    simp [CamAuto.onReceive, hlen, hsig, hm6]
  have h2 : CamAuto.onReceive s m BASE_HELLO = { baseMacAddress := m, baseFound := true } := by
    simp [CamAuto.onReceive, BASE_HELLO, BASE, hm6]
  rw [h1, h2]
  exact ⟨rfl, rfl, rfl, rfl⟩

/-- Witness for C15: the start-up state receives "BASE:HELLO" from 24:6F:28:01:02:03. -/
theorem c15_discovery_resolves_witness :
    (CamAuto.onReceive CamAuto.init [36, 111, 40, 1, 2, 3] BASE_HELLO).baseFound = true ∧
    (CamAuto.onReceive CamAuto.init [36, 111, 40, 1, 2, 3] BASE_HELLO).baseMacAddress
      = [36, 111, 40, 1, 2, 3] :=
  have h := c15_discovery_resolves CamAuto.init [36, 111, 40, 1, 2, 3] BASE_HELLO
    rfl rfl (by decide) (by decide)
  ⟨h.1, h.2.1⟩

/-- C16, as stated, fails on the code.  Input: a sender that has resolved the base at
24:6F:28:01:02:03 (`baseFound = true`) receives a second "BASE:HELLO" from
24:6F:28:0A:0B:0C.  `onReceive` does not test `baseFound`: the recorded address becomes the
second one. -/
theorem c16_one_shot_counterexample :
    (CamAuto.onReceive CamAuto.init [36, 111, 40, 1, 2, 3] BASE_HELLO)
      = { baseMacAddress := [36, 111, 40, 1, 2, 3], baseFound := true } ∧
    (CamAuto.onReceive { baseMacAddress := [36, 111, 40, 1, 2, 3], baseFound := true }
        [36, 111, 40, 10, 11, 12] BASE_HELLO).baseMacAddress = [36, 111, 40, 10, 11, 12] ∧
    [36, 111, 40, 10, 11, 12] ≠ [36, 111, 40, 1, 2, 3] := by
  decide

/-- C16, amended.  Discovery is not one-shot: in every sender state with `baseFound = true`,
handling a matching announcement (longer than 5 bytes, first five bytes "BASE:") from a
6-byte address `m2` overwrites `baseMacAddress` with `m2`, and `baseFound` stays true: the
last beacon wins. -/
theorem c16_last_beacon_wins (s : CamAuto.State) (m2 data : List Byte)
    (_hfound : s.baseFound = true) (hm : m2.length = 6)
    (hlen : 5 < data.length) (hsig : data.take 5 = BASE) :
    (CamAuto.onReceive s m2 data).baseMacAddress = m2 ∧
    (CamAuto.onReceive s m2 data).baseFound = true := by
  have hm6 : m2.take 6 = m2 := List.take_of_length_le (by omega)
  have h1 : CamAuto.onReceive s m2 data = { baseMacAddress := m2, baseFound := true } := by
    simp [CamAuto.onReceive, hlen, hsig, hm6]
  rw [h1]
  exact ⟨rfl, rfl⟩

/-- Witness for C16 (amended): a resolved sender receives "BASE:HELLO" from another
address. -/
theorem c16_last_beacon_wins_witness :
    (CamAuto.onReceive { baseMacAddress := [36, 111, 40, 1, 2, 3], baseFound := true }
        [36, 111, 40, 10, 11, 12] BASE_HELLO).baseMacAddress = [36, 111, 40, 10, 11, 12] ∧
    (CamAuto.onReceive { baseMacAddress := [36, 111, 40, 1, 2, 3], baseFound := true }
        [36, 111, 40, 10, 11, 12] BASE_HELLO).baseFound = true :=
  c16_last_beacon_wins { baseMacAddress := [36, 111, 40, 1, 2, 3], baseFound := true }
    [36, 111, 40, 10, 11, 12] BASE_HELLO rfl rfl (by decide) (by decide)

/-! ## C13, C14: what the ESP-NOW sender puts on the air -/

theorem camAuto_sendPhoto_found (s : CamAuto.State) (fb : Option (List Byte))
    (results : Nat → Bool) (fuel : Nat) (h : s.baseFound = true) :
    CamAuto.sendPhoto s fb results fuel
      = (Cam.sendPhoto fb results fuel).map
          (fun r => { state := s, captured := true, sends := r.1, sent := r.2 }) := by
  unfold CamAuto.sendPhoto Cam.sendPhoto CamAuto.CHUNK_SIZE Cam.CHUNK_SIZE
  rw [h]
  cases Cam.sendPhotoWith 200 fb results fuel with
  | none => rfl
  | some r => rfl

/-- C13, as stated, fails on the code.  Input: a payload of 205 bytes.  The sender emits the
data chunks of 200 and 5 bytes; the base station takes the 5-byte chunk for a control packet
(`len < 10`), finds neither "START:" nor "END" in it and drops it: after both chunks
`photoOffset` is 200, not 205, and the last chunk has left the state as it was. -/
theorem c13_short_chunk_counterexample :
    (Cam.sendPhoto (some (List.replicate 205 7)) (fun _ => true) 205).map
        (fun r => r.1.map (fun a => a.frame.length)) = some [9, 200, 5, 3] ∧
    (deliver init (inboundOf ⟨0, true⟩ [] [slice (List.replicate 205 7) 0 200])).1.photoOffset
      = 200 ∧
    (deliver init (inboundOf ⟨0, true⟩ []
      [slice (List.replicate 205 7) 0 200, slice (List.replicate 205 7) 200 5])).1.photoOffset
      = 200 ∧
    (onReceive ⟨0, true⟩ ⟨fun _ => 7, 0, 200⟩ [] (slice (List.replicate 205 7) 200 5)).2 = [] := by
  refine ⟨by decide!, by decide!, by decide!, rfl⟩

/-- C13, amended.  For every payload of length 1 to 50000 whose length modulo 200 is 0 or at
least 10, every data chunk the sender emits (with a transport that accepts every frame) has
between 10 and 200 bytes and is handled by the base station as data: in any state where it
fits it is copied at `photoOffset`, and delivered in order to a receiver with
`photoOffset = 0` the chunks are all appended, so that `photoOffset` ends at the payload
length with the payload in the buffer, `photoSize` untouched and nothing handed over. -/
theorem c13_long_chunks_are_data (P : List Byte) (fuel : Nat)
    (hP : 0 < P.length) (hcap : P.length ≤ MAX_PHOTO_SIZE)
    (hlast : P.length % 200 = 0 ∨ 10 ≤ P.length % 200) (hfuel : P.length ≤ fuel) :
    ∃ sends : List Cam.Send,
      Cam.sendPhoto (some P) (fun _ => true) fuel
        = some ({ frame := START ++ decimal P.length, ok := true } :: sends
                  ++ [{ frame := END, ok := true }], P.length) ∧
      (∀ a ∈ sends, 10 ≤ a.frame.length ∧ a.frame.length ≤ 200) ∧
      (∀ a ∈ sends, ∀ (env : Env) (s : State) (mac : List Byte),
        s.photoOffset + a.frame.length ≤ MAX_PHOTO_SIZE →
        onReceive env s mac a.frame =
          ({ s with
              photoBuffer := memcpy s.photoBuffer s.photoOffset a.frame
              photoOffset := s.photoOffset + a.frame.length }, [Effect.logDot])) ∧
      (∀ (s : State) (fs : List Inbound), s.photoOffset = 0 →
        fs.map Inbound.data = sends.map Cam.Send.frame →
        (deliver s fs).1.photoOffset = P.length ∧
        readBytes (deliver s fs).1.photoBuffer P.length = P ∧
        (deliver s fs).1.photoSize = s.photoSize ∧
        handedOver (deliver s fs).2 = []) := by
  obtain ⟨sends, hrun, hcat, hlen⟩ :=
    chunkLoop_accepting 200 P (by decide) fuel 0 1 (by omega) (by omega)
  have hle := chunkLoop_frame_length_le 200 P (fun _ => true) fuel 0 1 sends P.length hrun
  have h10 := hlen (by decide) (by simpa using hlast)
  refine ⟨sends, ?_, fun a ha => ⟨h10 a ha, hle a ha⟩, ?_, ?_⟩
  · simp [Cam.sendPhoto, Cam.sendPhotoWith, Cam.CHUNK_SIZE, hrun]
  · intro a ha env s mac hfit
    exact onReceive_data env s mac a.frame (h10 a ha) hfit
  · intro s fs hs hfs
    rw [List.drop_zero] at hcat
    have hd := deliver_data fs s
      (fun f hf => by
        have hmem : f.data ∈ sends.map Cam.Send.frame := by
          rw [← hfs]; exact List.mem_map_of_mem Inbound.data hf
        obtain ⟨a, ha, hfa⟩ := List.mem_map.mp hmem
        rw [← hfa]; exact h10 a ha)
      (by rw [hfs, hcat, hs]; omega)
    rw [hfs, hcat, hs, Nat.zero_add] at hd
    obtain ⟨h1, h2, h3, h4⟩ := hd
    refine ⟨h1, ?_, h3, h4⟩
    rw [h1] at h2
    rw [h2]
    simp [readBytes]

/-- Witness for C13 (amended): a payload of 410 bytes is sent as chunks of 200, 200 and 10
bytes, and the three chunks delivered after start-up leave `photoOffset = 410`. -/
theorem c13_long_chunks_are_data_witness :
    (Cam.sendPhoto (some (List.replicate 410 7)) (fun _ => true) 410).map
        (fun r => r.1.map (fun a => a.frame.length)) = some [9, 200, 200, 10, 3] ∧
    (Cam.sendPhoto (some (List.replicate 410 7)) (fun _ => true) 410).map
        (fun r => (deliver init
          (inboundOf ⟨0, true⟩ [] ((r.1.map Cam.Send.frame).tail.dropLast))).1.photoOffset)
      = some 410 := by
  obtain ⟨sends, hrun, _, _, hd⟩ := c13_long_chunks_are_data (List.replicate 410 7) 410
    (by rw [List.length_replicate]; decide) (by rw [List.length_replicate]; decide)
    (by rw [List.length_replicate]; decide) (by rw [List.length_replicate])
  refine ⟨by decide!, ?_⟩
  rw [hrun]
  simp only [Option.map_some', List.map_cons, List.map_append, List.map_nil,
    List.cons_append, List.tail_cons, List.dropLast_concat, Option.some.injEq]
  rw [(hd init _ rfl (inboundOf_data _ _ _)).1, List.length_replicate]

/-- C14, as stated, fails on the code.  Input: a photo of 450 bytes (3 chunks of at most 200
bytes).  The ESP-NOW senders (`espnow-cam` and `espnow-cam-auto`, `CHUNK_SIZE = 200`) send the
Begin frame "START:450", which is not "START:450:3": it carries no chunk count.  It is the
UDP sender that appends the count: its header for the same photo is "START:450:1". -/
theorem c14_begin_encoding_counterexample :
    (Cam.sendPhoto (some (List.replicate 450 7)) (fun _ => true) 450).map
        (fun r => r.1.head?.map Cam.Send.frame)
      = some (some [83, 84, 65, 82, 84, 58, 52, 53, 48]) ∧
    (CamAuto.sendPhoto ⟨[36, 111, 40, 1, 2, 3], true⟩ (some (List.replicate 450 7))
        (fun _ => true) 450).map (fun r => r.sends.head?.map Cam.Send.frame)
      = some (some [83, 84, 65, 82, 84, 58, 52, 53, 48]) ∧
    [83, 84, 65, 82, 84, 58, 52, 53, 48] ≠ START ++ decimal 450 ++ [58] ++ decimal 3 ∧
    (CamUdp.sendPhotoUDP true (some (List.replicate 450 7))).head?
      = some [83, 84, 65, 82, 84, 58, 52, 53, 48, 58, 49] := by
  refine ⟨by decide!, by decide!, by decide, by decide!⟩

/-- C14, amended.  The Begin frame of the ESP-NOW senders (`espnow-cam`, and
`espnow-cam-auto` once the base is found) is exactly "START:" followed by the decimal payload
length, whatever the transport answers; the chunk count is carried by the UDP sender, whose
header is "START:" + decimal length + ":" + decimal `totalChunks`. -/
theorem c14_begin_encoding (P : List Byte) (results : Nat → Bool) (fuel : Nat)
    (sends : List Cam.Send) (sent : Nat) (s : CamAuto.State)
    (hrun : Cam.sendPhoto (some P) results fuel = some (sends, sent))
    (hfound : s.baseFound = true) :
    sends.head? = some { frame := START ++ decimal P.length, ok := results 0 } ∧
    CamAuto.sendPhoto s (some P) results fuel
      = some { state := s, captured := true, sends := sends, sent := sent } ∧
    (CamUdp.sendPhotoUDP true (some P)).head?
      = some (START ++ decimal P.length ++ [58] ++ decimal (CamUdp.totalChunks P.length)) := by
  refine ⟨?_, ?_, rfl⟩
  · simp only [Cam.sendPhoto, Cam.sendPhotoWith] at hrun
    cases hloop : Cam.chunkLoop Cam.CHUNK_SIZE P results fuel 0 1 with
    | none => rw [hloop] at hrun; cases hrun
    | some r =>
      obtain ⟨t, f⟩ := r
      rw [hloop] at hrun
      simp only [Option.some.injEq, Prod.mk.injEq] at hrun
      rw [← hrun.1]
      rfl
  · rw [camAuto_sendPhoto_found s _ _ _ hfound, hrun]
    rfl

/-- Witness for C14 (amended): a photo of 12 bytes, with a transport that rejects the Begin
frame and accepts the rest. -/
theorem c14_begin_encoding_witness :
    ([{ frame := [83, 84, 65, 82, 84, 58, 49, 50], ok := false },
      { frame := List.replicate 12 7, ok := true },
      { frame := [69, 78, 68], ok := true }] : List Cam.Send).head?
      = some { frame := START ++ decimal (List.replicate 12 7).length,
               ok := (fun k => k != 0) 0 } :=
  (c14_begin_encoding (List.replicate 12 7) (fun k => k != 0) 1
    [{ frame := [83, 84, 65, 82, 84, 58, 49, 50], ok := false },
      { frame := List.replicate 12 7, ok := true },
      { frame := [69, 78, 68], ok := true }] 12
    ⟨[36, 111, 40, 1, 2, 3], true⟩ (by decide) rfl).1

/-! ## C17 to C20: the chunk loop of the ESP-NOW sender under a failing transport -/

theorem sendPhoto_eq_some (P : List Byte) (results : Nat → Bool) (fuel : Nat)
    (sends : List Cam.Send) (sent : Nat)
    (hrun : Cam.sendPhoto (some P) results fuel = some (sends, sent)) :
    ∃ t, Cam.chunkLoop 200 P results fuel 0 1 = some (t, sent) ∧
      sends = { frame := START ++ decimal P.length, ok := results 0 } :: t
                ++ [{ frame := END, ok := results (t.length + 1) }] := by
  simp only [Cam.sendPhoto, Cam.sendPhotoWith, Cam.CHUNK_SIZE] at hrun
  cases hloop : Cam.chunkLoop 200 P results fuel 0 1 with
  | none => rw [hloop] at hrun; cases hrun
  | some r =>
    obtain ⟨t, f⟩ := r
    rw [hloop] at hrun
    simp only [Option.some.injEq, Prod.mk.injEq] at hrun
    exact ⟨t, by rw [hrun.2], hrun.1.symm⟩

theorem sendPhoto_isSome_iff (P : List Byte) (results : Nat → Bool) (fuel : Nat) :
    (Cam.sendPhoto (some P) results fuel).isSome
      ↔ (P.length + 200 - 1) / 200 ≤ Cam.accepted results 1 fuel := by
  have h := chunkLoop_isSome_iff 200 P results (by decide) fuel 0 1 (Nat.zero_le _)
  rw [Nat.sub_zero] at h
  rw [← h]
  simp only [Cam.sendPhoto, Cam.sendPhotoWith, Cam.CHUNK_SIZE]
  cases Cam.chunkLoop 200 P results fuel 0 1 with
  | none => simp
  | some r => simp

theorem accepted_never (call n : Nat) : Cam.accepted (fun _ => false) call n = 0 := by
  induction n generalizing call with
  | zero => rfl
  | succ n ih => simp [Cam.accepted, ih]

theorem accepted_always (call n : Nat) : Cam.accepted (fun _ => true) call n = n := by
  induction n generalizing call with
  | zero => rfl
  | succ n ih => simp [Cam.accepted, ih]; omega

/-- C17, as stated, fails on the code.  Input: a payload of 400 bytes (200 bytes 1, then 200
bytes 2) and a transport that rejects the first send of the first chunk (call 1) and accepts
every other send.  The loop does not move on: `sent` stays 0 and the slice `[0, 200)` is
handed to the transport a second time before the slice `[200, 400)`. -/
theorem c17_no_retry_counterexample :
    Cam.sendPhoto (some (List.replicate 200 1 ++ List.replicate 200 2)) (fun k => k != 1) 3
      = some ([{ frame := [83, 84, 65, 82, 84, 58, 52, 48, 48], ok := true },
               { frame := List.replicate 200 1, ok := false },
               { frame := List.replicate 200 1, ok := true },
               { frame := List.replicate 200 2, ok := true },
               { frame := [69, 78, 68], ok := true }], 400) := by
  decide!

/-- C17, amended.  A failed chunk is retried: whenever `sendPhoto` finishes, every chunk send
for which the transport reported a non-success status is followed by another chunk send of
the same payload slice (`sent` is not advanced on failure); the auto-discovery sender, once
the base is found, makes the same sends. -/
theorem c17_failed_chunk_is_retried (P : List Byte) (results : Nat → Bool) (fuel : Nat)
    (sends : List Cam.Send) (sent : Nat) (s : CamAuto.State)
    (hrun : Cam.sendPhoto (some P) results fuel = some (sends, sent))
    (hfound : s.baseFound = true) :
    (∀ (i : Nat) (a : Cam.Send), 1 ≤ i → i + 1 < sends.length → sends[i]? = some a →
      a.ok = false →
      ∃ b, sends[i + 1]? = some b ∧ b.frame = a.frame ∧ i + 2 < sends.length) ∧
    CamAuto.sendPhoto s (some P) results fuel
      = some { state := s, captured := true, sends := sends, sent := sent } := by
  obtain ⟨t, hloop, hsends⟩ := sendPhoto_eq_some P results fuel sends sent hrun
  refine ⟨?_, by rw [camAuto_sendPhoto_found s _ _ _ hfound, hrun]; rfl⟩
  intro i a hi hlast ha hok
  obtain ⟨j, rfl⟩ : ∃ j, i = j + 1 := ⟨i - 1, by omega⟩
  rw [hsends] at ha hlast ⊢
  simp only [List.cons_append, List.length_cons, List.length_append, List.length_nil,
    List.getElem?_cons_succ] at ha hlast ⊢
  have hj : j < t.length := by omega
  rw [List.getElem?_append_left hj] at ha
  obtain ⟨b, hb, hframe⟩ := (chunkLoop_retry 200 P results fuel 0 1 t sent hloop).2 j a ha hok
  have hj1 : j + 1 < t.length := by
    by_contra hcon
    rw [List.getElem?_eq_none (by omega)] at hb
    cases hb
  refine ⟨b, ?_, hframe, by omega⟩
  rw [List.getElem?_append_left hj1]
  exact hb

/-- Witness for C17 (amended): 250 bytes, the first send of the second chunk rejected. -/
theorem c17_failed_chunk_is_retried_witness :
    ∃ b, ([{ frame := [83, 84, 65, 82, 84, 58, 50, 53, 48], ok := true },
           { frame := List.replicate 200 1, ok := true },
           { frame := List.replicate 50 2, ok := false },
           { frame := List.replicate 50 2, ok := true },
           { frame := [69, 78, 68], ok := true }] : List Cam.Send)[2 + 1]? = some b ∧
      b.frame = List.replicate 50 2 ∧ 2 + 2 < 5 :=
  (c17_failed_chunk_is_retried (List.replicate 200 1 ++ List.replicate 50 2)
    (fun k => k != 2) 3
    [{ frame := [83, 84, 65, 82, 84, 58, 50, 53, 48], ok := true },
     { frame := List.replicate 200 1, ok := true },
     { frame := List.replicate 50 2, ok := false },
     { frame := List.replicate 50 2, ok := true },
     { frame := [69, 78, 68], ok := true }] 250
    ⟨[36, 111, 40, 1, 2, 3], true⟩ (by decide!) rfl).1
    2 { frame := List.replicate 50 2, ok := false } (by decide) (by decide) rfl rfl

theorem chunkLoop_step_ok (M : Nat) (buf : List Byte) (results : Nat → Bool)
    (fuel sent call : Nat) (hlt : sent < buf.length) (hres : results call = true) :
    Cam.chunkLoop M buf results (fuel + 1) sent call
      = (Cam.chunkLoop M buf results fuel (sent + min M (buf.length - sent)) (call + 1)).map
          (fun r => ({ frame := slice buf sent (min M (buf.length - sent)),
                       ok := true } :: r.1, r.2)) := by
  simp only [Cam.chunkLoop, if_pos hlt, hres, if_true]
  cases Cam.chunkLoop M buf results fuel (sent + min M (buf.length - sent)) (call + 1) with
  | none => rfl
  | some r => rfl

theorem chunkLoop_step_fail (M : Nat) (buf : List Byte) (results : Nat → Bool)
    (fuel sent call : Nat) (hlt : sent < buf.length) (hres : results call = false) :
    Cam.chunkLoop M buf results (fuel + 1) sent call
      = (Cam.chunkLoop M buf results fuel sent (call + 1)).map
          (fun r => ({ frame := slice buf sent (min M (buf.length - sent)),
                       ok := false } :: r.1, r.2)) := by
  simp only [Cam.chunkLoop, if_pos hlt, hres, Bool.false_eq_true, if_false]
  cases Cam.chunkLoop M buf results fuel sent (call + 1) with
  | none => rfl
  | some r => rfl

theorem chunkLoop_done (M : Nat) (buf : List Byte) (results : Nat → Bool)
    (fuel sent call : Nat) (hge : ¬ sent < buf.length) :
    Cam.chunkLoop M buf results fuel sent call = some ([], sent) := by
  cases fuel with
  | zero => simp only [Cam.chunkLoop, if_neg hge]
  | succ fuel => simp only [Cam.chunkLoop, if_neg hge]

/-- C18.  For every payload that splits into 5 chunks (801 to 1000 bytes with
`CHUNK_SIZE = 200`) and a transport that reports failure for the send of chunk 2 (call 2;
call 0 is the Begin frame) and success for every other send, `sendPhoto` finishes (with fuel
6 or more): after the failed send it sends chunk 2 again, then chunks 3, 4 and 5 in order,
then "END", and `sent` is the payload length.  The UDP sender does not look at the result of
a send at all: for a payload of 5 chunks (5601 to 7000 bytes) it sends the header, the five
chunks in order and "END". -/
theorem c18_continue_on_failure (P Q : List Byte) (fuel : Nat)
    (h5 : 800 < P.length ∧ P.length ≤ 1000) (hfuel : 6 ≤ fuel)
    (hQ : 5600 < Q.length ∧ Q.length ≤ 7000) :
    Cam.sendPhoto (some P) (fun k => k != 2) fuel
      = some ([{ frame := START ++ decimal P.length, ok := true },
               { frame := slice P 0 200, ok := true },
               { frame := slice P 200 200, ok := false },
               { frame := slice P 200 200, ok := true },
               { frame := slice P 400 200, ok := true },
               { frame := slice P 600 200, ok := true },
               { frame := slice P 800 (P.length - 800), ok := true },
               { frame := END, ok := true }], P.length) ∧
    CamUdp.sendPhotoUDP true (some Q)
      = [CamUdp.header Q, CamUdp.chunk Q 0, CamUdp.chunk Q 1, CamUdp.chunk Q 2,
         CamUdp.chunk Q 3, CamUdp.chunk Q 4, END] := by
  obtain ⟨h5a, h5b⟩ := h5
  constructor
  · obtain ⟨k, rfl⟩ : ∃ k, fuel = k + 6 := ⟨fuel - 6, by omega⟩
    have e1 : min 200 (P.length - 0) = 200 := by omega
    have e2 : min 200 (P.length - 200) = 200 := by omega
    have e3 : min 200 (P.length - 400) = 200 := by omega
    have e4 : min 200 (P.length - 600) = 200 := by omega
    have e5 : min 200 (P.length - 800) = P.length - 800 := by omega
    have e6 : 800 + (P.length - 800) = P.length := by omega
    have hloop : Cam.chunkLoop 200 P (fun k => k != 2) (k + 6) 0 1
        = some ([{ frame := slice P 0 200, ok := true },
                 { frame := slice P 200 200, ok := false },
                 { frame := slice P 200 200, ok := true },
                 { frame := slice P 400 200, ok := true },
                 { frame := slice P 600 200, ok := true },
                 { frame := slice P 800 (P.length - 800), ok := true }], P.length) := by
      rw [chunkLoop_step_ok 200 P _ (k + 5) 0 1 (by omega) (by decide), e1,
        chunkLoop_step_fail 200 P _ (k + 4) (0 + 200) (1 + 1) (by omega) (by decide), e2,
        chunkLoop_step_ok 200 P _ (k + 3) (0 + 200) (1 + 1 + 1) (by omega) (by decide), e2,
        chunkLoop_step_ok 200 P _ (k + 2) (0 + 200 + 200) (1 + 1 + 1 + 1) (by omega)
          (by decide), e3,
        chunkLoop_step_ok 200 P _ (k + 1) (0 + 200 + 200 + 200) (1 + 1 + 1 + 1 + 1)
          (by omega) (by decide), e4,
        chunkLoop_step_ok 200 P _ k (0 + 200 + 200 + 200 + 200) (1 + 1 + 1 + 1 + 1 + 1)
          (by omega) (by decide), e5, e6,
        chunkLoop_done 200 P _ k P.length _ (by omega)]
      rfl
    simp only [Cam.sendPhoto, Cam.sendPhotoWith, Cam.CHUNK_SIZE, hloop]
    rfl
  · have ht : CamUdp.totalChunks Q.length = 5 := by
      simp only [CamUdp.totalChunks, CamUdp.chunkSize]
      omega
    simp only [CamUdp.sendPhotoUDP, CamUdp.chunks, ht]
    rfl

/-- Witness for C18: a payload of 1000 bytes for the ESP-NOW sender and one of 7000 bytes for
the UDP sender; chunks 3, 4 and 5 and "END" follow the failed send. -/
theorem c18_continue_on_failure_witness :
    (Cam.sendPhoto (some (List.replicate 1000 7)) (fun k => k != 2) 6).map
        (fun r => (r.1.map Cam.Send.ok, r.1.map (fun a => a.frame.length), r.2))
      = some ([true, true, false, true, true, true, true, true],
              [10, 200, 200, 200, 200, 200, 200, 3], 1000) ∧
    (CamUdp.sendPhotoUDP true (some (List.replicate 7000 7))).length = 7 := by
  have h := c18_continue_on_failure (List.replicate 1000 7) (List.replicate 7000 7) 6
    (by rw [List.length_replicate]; decide) (by decide)
    (by rw [List.length_replicate]; decide)
  refine ⟨?_, by rw [h.2]; rfl⟩
  rw [h.1]
  simp only [Option.map_some', List.map_cons, List.map_nil, List.length_replicate]
  decide!

/-- C19, as stated, fails on the code.  Input: a payload of 250 bytes and a transport that
rejects the first send of the second chunk (call 2).  `sendPhoto` finishes after one rejected
and three accepted chunk sends, and the total it reports is `sent = 250`, the payload
length, not less. -/
theorem c19_reduced_count_counterexample :
    (Cam.sendPhoto (some (List.replicate 250 7)) (fun k => k != 2) 3).map
        (fun r => (r.1.map Cam.Send.ok, r.1.map (fun a => a.frame.length), r.2))
      = some ([true, true, false, true, true], [9, 200, 50, 50, 3], 250) ∧
    ¬ (250 < (List.replicate 250 7).length) := by
  refine ⟨by decide!, by rw [List.length_replicate]; decide⟩

/-- C19, amended.  A rejected chunk does not reduce the bytes-sent count: whenever
`sendPhoto` finishes a transfer, the final `sent` it reports equals the payload length,
whatever the transport rejected on the way (a rejected chunk is sent again until it is
accepted); the same holds for the auto-discovery sender once the base is found. -/
theorem c19_sent_is_payload_length (P : List Byte) (results : Nat → Bool) (fuel : Nat)
    (sends : List Cam.Send) (sent : Nat) (s : CamAuto.State)
    (hrun : Cam.sendPhoto (some P) results fuel = some (sends, sent))
    (hfound : s.baseFound = true) :
    sent = P.length ∧
    CamAuto.sendPhoto s (some P) results fuel
      = some { state := s, captured := true, sends := sends, sent := P.length } := by
  obtain ⟨t, hloop, _⟩ := sendPhoto_eq_some P results fuel sends sent hrun
  have hsent := chunkLoop_final 200 P results fuel 0 1 t sent hloop (Nat.zero_le _)
  refine ⟨hsent, ?_⟩
  rw [camAuto_sendPhoto_found s _ _ _ hfound, hrun, hsent]
  rfl

/-- Witness for C19 (amended): 250 bytes, the first send of the second chunk rejected. -/
theorem c19_sent_is_payload_length_witness :
    (250 : Nat) = (List.replicate 200 1 ++ List.replicate 50 2).length :=
  (c19_sent_is_payload_length (List.replicate 200 1 ++ List.replicate 50 2)
    (fun k => k != 2) 3
    [{ frame := [83, 84, 65, 82, 84, 58, 50, 53, 48], ok := true },
     { frame := List.replicate 200 1, ok := true },
     { frame := List.replicate 50 2, ok := false },
     { frame := List.replicate 50 2, ok := true },
     { frame := [69, 78, 68], ok := true }] 250
    ⟨[36, 111, 40, 1, 2, 3], true⟩ (by decide!) rfl).1

/-- C20, as stated, fails on the code.  Input: a payload of 200 bytes and a transport that
always reports failure.  After 1000 iterations, and indeed however many iterations are
allowed, the chunk loop is still running: `sent` stays 0 and the same slice is sent again
and again. -/
theorem c20_termination_counterexample :
    Cam.sendPhoto (some (List.replicate 200 7)) (fun _ => false) 1000 = none ∧
    ∀ fuel : Nat, Cam.sendPhoto (some (List.replicate 200 7)) (fun _ => false) fuel = none := by
  refine ⟨by decide!, ?_⟩
  intro fuel
  have h := sendPhoto_isSome_iff (List.replicate 200 7) (fun _ => false) fuel
  rw [accepted_never, List.length_replicate] at h
  cases hrun : Cam.sendPhoto (some (List.replicate 200 7)) (fun _ => false) fuel with
  | none => rfl
  | some r =>
    rw [hrun] at h
    have : (200 + 200 - 1) / 200 ≤ 0 := h.mp rfl
    exact absurd this (by decide)

/-- C20, amended.  The send loop terminates exactly when the transport accepts enough sends:
for every payload and every transport behaviour, `sendPhoto` has finished within `fuel`
iterations of the chunk loop if and only if at least `ceil(len / 200)` of the chunk sends
numbered 1 to `fuel` were accepted.  With a transport that accepts every send this is after
`ceil(len / 200)` sends; with one that always reports failure and a non-empty payload,
never.  The same holds for the auto-discovery sender once the base is found. -/
theorem c20_send_loop_termination (P : List Byte) (results : Nat → Bool) (fuel : Nat)
    (s : CamAuto.State) (hfound : s.baseFound = true) :
    ((Cam.sendPhoto (some P) results fuel).isSome
      ↔ (P.length + 200 - 1) / 200 ≤ Cam.accepted results 1 fuel) ∧
    ((CamAuto.sendPhoto s (some P) results fuel).isSome
      ↔ (P.length + 200 - 1) / 200 ≤ Cam.accepted results 1 fuel) ∧
    ((Cam.sendPhoto (some P) (fun _ => true) fuel).isSome
      ↔ (P.length + 200 - 1) / 200 ≤ fuel) ∧
    ((Cam.sendPhoto (some P) (fun _ => false) fuel).isSome ↔ P.length = 0) := by
  have h := sendPhoto_isSome_iff P results fuel
  have ht := sendPhoto_isSome_iff P (fun _ => true) fuel
  have hf := sendPhoto_isSome_iff P (fun _ => false) fuel
  rw [accepted_always] at ht
  rw [accepted_never, Nat.le_zero, chunksLeft_eq_zero _ _ (by decide)] at hf
  refine ⟨h, ?_, ht, hf⟩
  rw [camAuto_sendPhoto_found s _ _ _ hfound, ← h]
  cases Cam.sendPhoto (some P) results fuel with
  | none => simp
  | some r => simp

/-- Witness for C20 (amended): 250 bytes and a transport that rejects call 2 only; the loop
has not finished after 2 iterations and has finished after 3. -/
theorem c20_send_loop_termination_witness :
    (Cam.sendPhoto (some (List.replicate 250 7)) (fun k => k != 2) 2).isSome = false ∧
    (Cam.sendPhoto (some (List.replicate 250 7)) (fun k => k != 2) 3).isSome = true ∧
    (CamAuto.sendPhoto ⟨[36, 111, 40, 1, 2, 3], true⟩ (some (List.replicate 250 7))
      (fun k => k != 2) 3).isSome = true := by
  have h2 := c20_send_loop_termination (List.replicate 250 7) (fun k => k != 2) 2
    ⟨[36, 111, 40, 1, 2, 3], true⟩ rfl
  have h3 := c20_send_loop_termination (List.replicate 250 7) (fun k => k != 2) 3
    ⟨[36, 111, 40, 1, 2, 3], true⟩ rfl
  rw [List.length_replicate] at h2 h3
  refine ⟨?_, h3.1.mpr (by decide), h3.2.1.mpr (by decide)⟩
  cases hrun : (Cam.sendPhoto (some (List.replicate 250 7)) (fun k => k != 2) 2).isSome with
  | false => rfl
  | true => exact absurd (h2.1.mp hrun) (by decide)

/-! ## Auxiliary lemmas on control frames and on the accepted chunks -/

theorem cstr_append_nul (data : List Byte) : cstr (data ++ [0]) = cstr data := by
  induction data with
  | nil => rfl
  | cons a l ih =>
    simp only [cstr, List.cons_append, List.takeWhile_cons] at ih ⊢
    split_ifs
    · rw [ih]
    · rfl

theorem cstr_take_eq (x l : List Byte) (n : Nat) (h : (cstr x).take n = l)
    (hl : l.length = n) : x.take n = l := by
  have hpre : cstr x <+: x := List.takeWhile_prefix _
  have hx : cstr x = x.take (cstr x).length := List.prefix_iff_eq_take.mp hpre
  rw [hx, List.take_take] at h
  have hlen := congrArg List.length h
  rw [List.length_take, hl] at hlen
  have hmin : min n (cstr x).length = n := by omega
  rw [hmin] at h
  exact h

theorem strncmpEq_START_iff (data : List Byte) (hlen : data.length < 10) :
    strncmpEq (data.take (min data.length 31) ++ [0]) START 6 = true ↔ data.take 6 = START := by
  constructor
  · intro h
    have hmin : min data.length 31 = data.length := by omega
    rw [hmin, List.take_length] at h
    have h0 : (cstr START).take 6 = START := by decide
    simp only [strncmpEq, h0, beq_iff_eq] at h
    rw [cstr_append_nul] at h
    exact cstr_take_eq data START 6 h rfl
  · exact strncmpEq_START data hlen

theorem strcmpEq_END_iff (data : List Byte) (hlen : data.length < 10) :
    strcmpEq (data.take (min data.length 31) ++ [0]) END = true ↔ cstr data = END := by
  have hmin : min data.length 31 = data.length := by omega
  have h0 : cstr END = END := by decide
  rw [hmin, List.take_length]
  simp only [strcmpEq, h0, beq_iff_eq, cstr_append_nul]

/-- Frames shorter than ten bytes that hold neither a Begin nor an End are dropped. -/
theorem onReceive_short_other (env : Env) (s : State) (mac data : List Byte)
    (hlen : data.length < 10) (hS : data.take 6 ≠ START) (hE : cstr data ≠ END) :
    onReceive env s mac data = (s, []) := by
  have h1 : strncmpEq (data.take (min data.length 31) ++ [0]) START 6 = false := by
    cases h : strncmpEq (data.take (min data.length 31) ++ [0]) START 6 with
    | false => rfl
    | true => exact absurd ((strncmpEq_START_iff data hlen).mp h) hS
  have h2 : strcmpEq (data.take (min data.length 31) ++ [0]) END = false := by
    cases h : strcmpEq (data.take (min data.length 31) ++ [0]) END with
    | false => rfl
    | true => exact absurd ((strcmpEq_END_iff data hlen).mp h) hE
  unfold onReceive
  simp only [if_pos hlen, h1, h2, Bool.false_eq_true, if_false]

/-- Decoding the Begin frame of a length below 1000 gives back the length. -/
theorem begin_decode_small :
    ∀ n, n < 1000 →
      (START ++ decimal n).length < 10 ∧ (START ++ decimal n).take 6 = START ∧
      toUInt32 (atoi (((START ++ decimal n) ++ [0]).drop 6)) = n := by
  decide!

/-- The chunks that the transport accepted are consecutive slices of the frame buffer: they
concatenate to what was left to send, and each has the length `min(M, remaining)`. -/
theorem chunkLoop_accepted (M : Nat) (buf : List Byte) (results : Nat → Bool) :
    ∀ (fuel sent call : Nat) (t : List Cam.Send) (final : Nat),
    Cam.chunkLoop M buf results fuel sent call = some (t, final) → sent ≤ buf.length →
    ((t.filter Cam.Send.ok).map Cam.Send.frame).flatten = buf.drop sent ∧
    ∀ (j : Nat) (c : List Byte), ((t.filter Cam.Send.ok).map Cam.Send.frame)[j]? = some c →
      c.length = min M (buf.length - sent
        - ((((t.filter Cam.Send.ok).map Cam.Send.frame).take j).flatten).length) := by
  intro fuel
  induction fuel with
  | zero =>
    intro sent call t final h hle
    by_cases hlt : sent < buf.length
    · simp only [Cam.chunkLoop, if_pos hlt] at h
      cases h
    · rw [chunkLoop_done M buf results 0 sent call hlt] at h
      simp only [Option.some.injEq, Prod.mk.injEq] at h
      rw [← h.1]
      refine ⟨?_, fun j c hc => by simp at hc⟩
      simp only [List.filter_nil, List.map_nil, List.flatten_nil]
      exact (List.drop_eq_nil_of_le (by omega)).symm
  | succ fuel ih =>
    intro sent call t final h hle
    by_cases hlt : sent < buf.length
    · by_cases hres : results call = true
      · rw [chunkLoop_step_ok M buf results fuel sent call hlt hres] at h
        obtain ⟨r, hr, hrt⟩ := Option.map_eq_some'.mp h
        obtain ⟨t2, f2⟩ := r
        simp only [Prod.mk.injEq] at hrt
        obtain ⟨ih1, ih2⟩ := ih _ _ t2 f2 hr (by omega)
        rw [← hrt.1]
        simp only [List.filter_cons, if_true, List.map_cons, List.flatten_cons]
        have hcl : (slice buf sent (min M (buf.length - sent))).length
            = min M (buf.length - sent) := slice_length buf sent _ (by omega)
        refine ⟨?_, ?_⟩
        · rw [ih1]
          exact slice_append_drop buf sent _
        · intro j c hc
          cases j with
          | zero =>
            simp only [List.getElem?_cons_zero, Option.some.injEq] at hc
            rw [← hc, hcl]
            simp
          | succ j =>
            simp only [List.getElem?_cons_succ] at hc
            have := ih2 j c hc
            simp only [List.take_succ_cons, List.flatten_cons, List.length_append, hcl]
            rw [this]
            congr 1
            omega
      · have hres2 : results call = false := by
          cases h2 : results call with
          | false => rfl
          | true => exact absurd h2 hres
        rw [chunkLoop_step_fail M buf results fuel sent call hlt hres2] at h
        obtain ⟨r, hr, hrt⟩ := Option.map_eq_some'.mp h
        obtain ⟨t2, f2⟩ := r
        simp only [Prod.mk.injEq] at hrt
        obtain ⟨ih1, ih2⟩ := ih _ _ t2 f2 hr hle
        rw [← hrt.1]
        simp only [List.filter_cons, Bool.false_eq_true, if_false]
        exact ⟨ih1, ih2⟩
    · rw [chunkLoop_done M buf results (fuel + 1) sent call hlt] at h
      simp only [Option.some.injEq, Prod.mk.injEq] at h
      rw [← h.1]
      refine ⟨?_, fun j c hc => by simp at hc⟩
      simp only [List.filter_nil, List.map_nil, List.flatten_nil]
      exact (List.drop_eq_nil_of_le (by omega)).symm

/-! ## C21, C22, C25: what the senders emit -/

/-- C21.  In the auto-discovery sender, for every state with `baseFound = false` (whatever
the camera would deliver and the transport would answer), `sendPhoto` returns at once: it
makes no call of `esp_now_send` (no Begin, no data chunk, no End), does not call
`esp_camera_fb_get`, and leaves `baseFound` and `baseMacAddress` as they were. -/
theorem c21_unresolved_peer_sends_nothing (s : CamAuto.State) (fb : Option (List Byte))
    (results : Nat → Bool) (fuel : Nat) (hfound : s.baseFound = false) :
    CamAuto.sendPhoto s fb results fuel
      = some { state := s, captured := false, sends := [], sent := 0 } := by
  unfold CamAuto.sendPhoto
  rw [hfound]
  rfl

/-- Witness for C21: the start-up state, a camera that would deliver 300 bytes. -/
theorem c21_unresolved_peer_sends_nothing_witness :
    CamAuto.sendPhoto CamAuto.init (some (List.replicate 300 7)) (fun _ => true) 10
      = some { state := CamAuto.init, captured := false, sends := [], sent := 0 } :=
  c21_unresolved_peer_sends_nothing CamAuto.init (some (List.replicate 300 7))
    (fun _ => true) 10 rfl

/-- C22.  When the capture call yields no frame buffer, each send routine returns having
emitted no frame at all: `sendPhoto` of the ESP-NOW sender and of the auto-discovery sender
make no call of `esp_now_send`, and `sendPhotoUDP` sends no packet - whatever the transport
would answer and however few iterations are allowed. -/
theorem c22_capture_failure_sends_nothing (results : Nat → Bool) (fuel : Nat)
    (s : CamAuto.State) (cameraOK : Bool) :
    Cam.sendPhoto none results fuel = some ([], 0) ∧
    (CamAuto.sendPhoto s none results fuel).map CamAuto.Outcome.sends = some [] ∧
    (CamAuto.sendPhoto s none results fuel).map CamAuto.Outcome.state = some s ∧
    CamUdp.sendPhotoUDP cameraOK none = [] := by
  refine ⟨rfl, ?_, ?_, ?_⟩
  · cases hb : s.baseFound <;> simp [CamAuto.sendPhoto, Cam.sendPhotoWith, hb]
  · cases hb : s.baseFound <;> simp [CamAuto.sendPhoto, Cam.sendPhotoWith, hb]
  · cases cameraOK <;> rfl

/-- C25.  For every payload and every pattern of transport results under which `sendPhoto`
finishes, the sends are the Begin frame, the chunk sends and the End frame; the chunks that
the transport accepted, concatenated in order, are exactly the payload; each accepted chunk
has the length `min(200, remaining)`, where `remaining` is the payload length minus the
accepted chunks before it; and on exit `sent` is the payload length.  The auto-discovery
sender, once the base is found, makes the same sends. -/
theorem c25_accepted_chunks_reconstruct (P : List Byte) (results : Nat → Bool) (fuel : Nat)
    (sends : List Cam.Send) (sent : Nat) (s : CamAuto.State)
    (hrun : Cam.sendPhoto (some P) results fuel = some (sends, sent))
    (hfound : s.baseFound = true) :
    ∃ t : List Cam.Send,
      sends = { frame := START ++ decimal P.length, ok := results 0 } :: t
                ++ [{ frame := END, ok := results (t.length + 1) }] ∧
      ((t.filter Cam.Send.ok).map Cam.Send.frame).flatten = P ∧
      (∀ (j : Nat) (c : List Byte),
        ((t.filter Cam.Send.ok).map Cam.Send.frame)[j]? = some c →
        c.length = min 200 (P.length
          - ((((t.filter Cam.Send.ok).map Cam.Send.frame).take j).flatten).length)) ∧
      sent = P.length ∧
      CamAuto.sendPhoto s (some P) results fuel
        = some { state := s, captured := true, sends := sends, sent := P.length } := by
  obtain ⟨t, hloop, hsends⟩ := sendPhoto_eq_some P results fuel sends sent hrun
  have hsent := chunkLoop_final 200 P results fuel 0 1 t sent hloop (Nat.zero_le _)
  obtain ⟨hcat, hlen⟩ := chunkLoop_accepted 200 P results fuel 0 1 t sent hloop (Nat.zero_le _)
  rw [List.drop_zero] at hcat
  refine ⟨t, hsends, hcat, ?_, hsent, ?_⟩
  · intro j c hc
    have := hlen j c hc
    rw [Nat.sub_zero] at this
    exact this
  · rw [camAuto_sendPhoto_found s _ _ _ hfound, hrun, hsent]
    rfl

/-- Witness for C25: 250 bytes (200 bytes 1, then 50 bytes 2), the first send of the second
chunk rejected: the accepted chunks are the two slices, and `sent = 250`. -/
theorem c25_accepted_chunks_reconstruct_witness :
    (Cam.sendPhoto (some (List.replicate 200 1 ++ List.replicate 50 2))
        (fun k => k != 2) 3).map
      (fun r => (((r.1.tail.dropLast.filter Cam.Send.ok).map Cam.Send.frame).flatten, r.2))
      = some (List.replicate 200 1 ++ List.replicate 50 2,
              (List.replicate 200 1 ++ List.replicate 50 2).length) := by
  have hrun : Cam.sendPhoto (some (List.replicate 200 1 ++ List.replicate 50 2))
      (fun k => k != 2) 3
      = some ([{ frame := [83, 84, 65, 82, 84, 58, 50, 53, 48], ok := true },
               { frame := List.replicate 200 1, ok := true },
               { frame := List.replicate 50 2, ok := false },
               { frame := List.replicate 50 2, ok := true },
               { frame := [69, 78, 68], ok := true }], 250) := by decide!
  obtain ⟨t, hsends, hcat, _, hsent, _⟩ :=
    c25_accepted_chunks_reconstruct (List.replicate 200 1 ++ List.replicate 50 2)
      (fun k => k != 2) 3 _ 250 ⟨[36, 111, 40, 1, 2, 3], true⟩ hrun rfl
  rw [hrun, hsends]
  simp only [Option.map_some', List.cons_append, List.tail_cons, List.dropLast_concat,
    hcat, hsent]

/-! ## C23, C24, C26 to C29: more on the reassembly state machine -/

/-- C23.  The transition of the base station does not depend on the sender address: for
every state, every frame and any two addresses `onReceive` gives the same state and the same
effects.  Hence data chunks (at least 10 bytes each, fitting together) delivered from any
mix of senders are appended to the one buffer in arrival order: the buffer ends with the
concatenation of all the chunks, whatever their addresses. -/
theorem c23_sender_address_is_ignored (env : Env) (s : State) (mac1 mac2 data : List Byte)
    (fs : List Inbound) (h10 : ∀ f ∈ fs, 10 ≤ f.data.length)
    (hfit : s.photoOffset + ((fs.map Inbound.data).flatten).length ≤ MAX_PHOTO_SIZE) :
    onReceive env s mac1 data = onReceive env s mac2 data ∧
    (deliver s fs).1.photoOffset = s.photoOffset + ((fs.map Inbound.data).flatten).length ∧
    readBytes (deliver s fs).1.photoBuffer (deliver s fs).1.photoOffset
      = readBytes s.photoBuffer s.photoOffset ++ (fs.map Inbound.data).flatten := by
  have hd := deliver_data fs s h10 hfit
  exact ⟨rfl, hd.1, hd.2.1⟩

/-- Witness for C23: chunks of two senders delivered alternately after start-up end up
interleaved in the buffer. -/
theorem c23_sender_address_is_ignored_witness :
    onReceive ⟨0, true⟩ init [36, 111, 40, 1, 2, 3] (List.replicate 10 1)
      = onReceive ⟨0, true⟩ init [36, 111, 40, 10, 11, 12] (List.replicate 10 1) ∧
    readBytes (deliver init
        [⟨⟨0, true⟩, [36, 111, 40, 1, 2, 3], List.replicate 10 1⟩,
         ⟨⟨0, true⟩, [36, 111, 40, 10, 11, 12], List.replicate 10 2⟩,
         ⟨⟨0, true⟩, [36, 111, 40, 1, 2, 3], List.replicate 10 3⟩,
         ⟨⟨0, true⟩, [36, 111, 40, 10, 11, 12], List.replicate 10 4⟩]).1.photoBuffer 40
      = List.replicate 10 1 ++ List.replicate 10 2 ++ List.replicate 10 3
          ++ List.replicate 10 4 := by
  have h := c23_sender_address_is_ignored ⟨0, true⟩ init [36, 111, 40, 1, 2, 3]
    [36, 111, 40, 10, 11, 12] (List.replicate 10 1)
    [⟨⟨0, true⟩, [36, 111, 40, 1, 2, 3], List.replicate 10 1⟩,
     ⟨⟨0, true⟩, [36, 111, 40, 10, 11, 12], List.replicate 10 2⟩,
     ⟨⟨0, true⟩, [36, 111, 40, 1, 2, 3], List.replicate 10 3⟩,
     ⟨⟨0, true⟩, [36, 111, 40, 10, 11, 12], List.replicate 10 4⟩]
    (by decide) (by decide)
  refine ⟨h.1, ?_⟩
  have h2 := h.2.2
  rw [h.2.1] at h2
  exact h2.trans (by decide)

/-- C24.  Starting from any receiver state with `photoOffset = 0`, after any sequence of data
frames, each of at least 10 bytes and together at most `MAX_PHOTO_SIZE` bytes, `photoOffset`
is the sum of their lengths and `photoBuffer[0..photoOffset)` is their concatenation in
arrival order.  A single append of `s` bytes (in any state where it fits) writes the range
`[photoOffset, photoOffset + s)` with the bytes of the frame and leaves every byte outside
that range, in particular every byte before it, unchanged. -/
theorem c24_accumulation_in_arrival_order (s t : State) (fs : List Inbound) (env : Env)
    (mac d : List Byte) (hs : s.photoOffset = 0) (h10 : ∀ f ∈ fs, 10 ≤ f.data.length)
    (htotal : ((fs.map Inbound.data).flatten).length ≤ MAX_PHOTO_SIZE)
    (hd10 : 10 ≤ d.length) (hdfit : t.photoOffset + d.length ≤ MAX_PHOTO_SIZE) :
    (deliver s fs).1.photoOffset = ((fs.map Inbound.data).flatten).length ∧
    (deliver s fs).1.photoOffset = ((fs.map Inbound.data).map List.length).sum ∧
    readBytes (deliver s fs).1.photoBuffer (deliver s fs).1.photoOffset
      = (fs.map Inbound.data).flatten ∧
    (onReceive env t mac d).1.photoOffset = t.photoOffset + d.length ∧
    (∀ i, i < t.photoOffset ∨ t.photoOffset + d.length ≤ i →
      (onReceive env t mac d).1.photoBuffer i = t.photoBuffer i) ∧
    (∀ i, i < d.length →
      (onReceive env t mac d).1.photoBuffer (t.photoOffset + i) = d.getD i 0) := by
  have hdel := deliver_data fs s h10 (by rw [hs]; omega)
  rw [hs, Nat.zero_add] at hdel
  have hstep := onReceive_data env t mac d hd10 hdfit
  refine ⟨hdel.1, ?_, ?_, ?_, ?_, ?_⟩
  · rw [hdel.1, List.length_flatten]
  · rw [hdel.2.1]
    simp [readBytes]
  · rw [hstep]
  · intro i hi
    rw [hstep]
    exact memcpy_outside _ _ _ _ hi
  · intro i hi
    rw [hstep]
    simp only [memcpy]
    rw [if_pos ⟨by omega, by omega⟩]
    congr 1
    omega

/-- Witness for C24: three data frames of 10, 12 and 10 bytes after start-up, and a single
append of 10 bytes at offset 5. -/
theorem c24_accumulation_in_arrival_order_witness :
    (deliver init (inboundOf ⟨0, true⟩ []
      [List.replicate 10 1, List.replicate 12 2, List.replicate 10 3])).1.photoOffset = 32 ∧
    readBytes (deliver init (inboundOf ⟨0, true⟩ []
      [List.replicate 10 1, List.replicate 12 2, List.replicate 10 3])).1.photoBuffer 32
      = List.replicate 10 1 ++ List.replicate 12 2 ++ List.replicate 10 3 ∧
    (onReceive ⟨0, true⟩ ⟨fun _ => 9, 0, 5⟩ [] (List.replicate 10 1)).1.photoBuffer 4 = 9 := by
  have h := c24_accumulation_in_arrival_order init ⟨fun _ => 9, 0, 5⟩
    (inboundOf ⟨0, true⟩ [] [List.replicate 10 1, List.replicate 12 2, List.replicate 10 3])
    ⟨0, true⟩ [] (List.replicate 10 1) rfl (by decide) (by decide) (by decide) (by decide)
  have h3 := h.2.2.1
  rw [h.1] at h3
  exact ⟨h.1.trans (by decide), h3.trans (by decide), h.2.2.2.2.1 4 (Or.inl (by decide))⟩

/-- C26.  For every receiver state and every inbound frame of 0 to 9 bytes that neither
begins with "START:" nor reads as the C string "END", `onReceive` leaves the whole state
(`photoBuffer`, `photoOffset`, `photoSize`) unchanged and has no effect at all; in particular
a data chunk shorter than 10 bytes contributes nothing to the image. -/
theorem c26_short_frames_are_dropped (env : Env) (s : State) (mac data : List Byte)
    (hlen : data.length < 10) (hS : data.take 6 ≠ START) (hE : cstr data ≠ END) :
    onReceive env s mac data = (s, []) ∧
    (onReceive env s mac data).1.photoBuffer = s.photoBuffer ∧
    (onReceive env s mac data).1.photoOffset = s.photoOffset ∧
    (onReceive env s mac data).1.photoSize = s.photoSize ∧
    (onReceive env s mac data).2 = [] := by
  rw [onReceive_short_other env s mac data hlen hS hE]
  exact ⟨rfl, rfl, rfl, rfl, rfl⟩

/-- Witness for C26: a last data chunk of five bytes [255, 216, 255, 224, 0] at offset 200. -/
theorem c26_short_frames_are_dropped_witness :
    (onReceive ⟨0, true⟩ ⟨fun _ => 7, 0, 200⟩ [] [255, 216, 255, 224, 0]).1.photoOffset
      = 200 ∧
    (onReceive ⟨0, true⟩ ⟨fun _ => 7, 0, 200⟩ [] [255, 216, 255, 224, 0]).2 = [] :=
  have h := c26_short_frames_are_dropped ⟨0, true⟩ ⟨fun _ => 7, 0, 200⟩ []
    [255, 216, 255, 224, 0] (by decide) (by decide) (by decide)
  ⟨h.2.2.1, h.2.2.2.2⟩

/-- C27.  For every `n` with `0 ≤ n ≤ 999`, the frame "START:" + decimal(n) is shorter than
10 bytes and is recognised as Begin: handling it in any state sets `photoSize = n` and
`photoOffset = 0`, logs the length, and leaves `photoBuffer` unchanged. -/
theorem c27_begin_decode_inverts_encode (env : Env) (s : State) (mac : List Byte) (n : Nat)
    (hn : n ≤ 999) :
    (START ++ decimal n).length < 10 ∧
    onReceive env s mac (START ++ decimal n)
      = ({ s with photoSize := n, photoOffset := 0 }, [Effect.logReceiving n]) ∧
    (onReceive env s mac (START ++ decimal n)).1.photoSize = n ∧
    (onReceive env s mac (START ++ decimal n)).1.photoOffset = 0 ∧
    (onReceive env s mac (START ++ decimal n)).1.photoBuffer = s.photoBuffer := by
  obtain ⟨hlen, hpre, hdec⟩ := begin_decode_small n (by omega)
  have hstep := onReceive_begin env s mac (START ++ decimal n) hlen hpre
  rw [hdec] at hstep
  rw [hstep]
  exact ⟨hlen, rfl, rfl, rfl, rfl⟩

/-- Witness for C27: "START:999" handled with 400 bytes of an earlier transfer in the
buffer. -/
theorem c27_begin_decode_inverts_encode_witness :
    (onReceive ⟨0, true⟩ ⟨fun _ => 7, 0, 400⟩ [] (START ++ decimal 999)).1.photoSize = 999 ∧
    (onReceive ⟨0, true⟩ ⟨fun _ => 7, 0, 400⟩ [] (START ++ decimal 999)).1.photoOffset = 0 :=
  have h := c27_begin_decode_inverts_encode ⟨0, true⟩ ⟨fun _ => 7, 0, 400⟩ [] 999 (by decide)
  ⟨h.2.2.1, h.2.2.2.1⟩

/-- C28.  For every receiver state with `photoOffset = 0`, handling the frame "END" hands
over no image bytes (no file write, no serial dump: the only effect is the log line "Photo
complete!") and leaves `photoBuffer`, `photoOffset` and `photoSize` unchanged. -/
theorem c28_end_with_nothing_received (env : Env) (s : State) (mac : List Byte)
    (h0 : s.photoOffset = 0) :
    onReceive env s mac END = (s, [Effect.logComplete]) ∧
    handedOver (onReceive env s mac END).2 = [] ∧
    (onReceive env s mac END).1 = s := by
  have h : onReceive env s mac END = (s, [Effect.logComplete]) := by
    rw [onReceive_END]
    simp only [savePhoto, if_pos h0]
  rw [h]
  exact ⟨rfl, rfl, rfl⟩

/-- Witness for C28: "END" right after start-up. -/
theorem c28_end_with_nothing_received_witness :
    handedOver (onReceive ⟨0, true⟩ init [] END).2 = [] ∧
    (onReceive ⟨0, true⟩ init [] END).1 = init :=
  (c28_end_with_nothing_received ⟨0, true⟩ init [] rfl).2

/-- C29.  For every receiver state with `photoOffset ≤ 49990`, handling the 10-byte
announcement "BASE:HELLO" (the frame the base station itself broadcasts in `loop`) in the
base station's `onReceive` copies those 10 bytes into `photoBuffer` at `photoOffset`,
advances `photoOffset` by 10 and leaves the bytes before it unchanged. -/
theorem c29_beacon_is_data (env : Env) (s : State) (mac : List Byte)
    (hoff : s.photoOffset ≤ 49990) :
    onReceive env s mac BASE_HELLO
      = ({ s with
            photoBuffer := memcpy s.photoBuffer s.photoOffset BASE_HELLO
            photoOffset := s.photoOffset + 10 }, [Effect.logDot]) ∧
    (onReceive env s mac BASE_HELLO).1.photoOffset = s.photoOffset + 10 ∧
    readBytes (onReceive env s mac BASE_HELLO).1.photoBuffer (s.photoOffset + 10)
      = readBytes s.photoBuffer s.photoOffset ++ BASE_HELLO := by
  have hstep := onReceive_data env s mac BASE_HELLO (by decide)
    (by
      have h1 : BASE_HELLO.length = 10 := rfl
      have h2 : MAX_PHOTO_SIZE = 50000 := rfl
      omega)
  rw [hstep]
  exact ⟨rfl, rfl, readBytes_memcpy_append s.photoBuffer s.photoOffset BASE_HELLO⟩

/-- Witness for C29: the beacon handled after 20 bytes of a photo. -/
theorem c29_beacon_is_data_witness :
    (onReceive ⟨0, true⟩ ⟨fun _ => 7, 0, 20⟩ [] BASE_HELLO).1.photoOffset = 20 + 10 ∧
    readBytes (onReceive ⟨0, true⟩ ⟨fun _ => 7, 0, 20⟩ [] BASE_HELLO).1.photoBuffer (20 + 10)
      = readBytes (fun _ => 7) 20 ++ BASE_HELLO :=
  (c29_beacon_is_data ⟨0, true⟩ ⟨fun _ => 7, 0, 20⟩ [] (by decide)).2

/-! ## C30: the discovery state of the sender -/

/-- C30.  The receive callback of the auto-discovery sender writes `baseFound` and
`baseMacAddress` exactly when the frame is longer than 5 bytes and its first five bytes are
"BASE:": such a frame sets the state to the originator address and `baseFound = true`; any
other frame - in particular the frame that is exactly the 5 bytes "BASE:" - leaves the state
as it was, so a changed state implies a matching frame.  For every frame, a state with
`baseFound = true` still has `baseFound = true` afterwards. -/
theorem c30_discovery_state_changes (s : CamAuto.State) (mac data : List Byte) :
    (5 < data.length ∧ data.take 5 = BASE →
      CamAuto.onReceive s mac data = { baseMacAddress := mac.take 6, baseFound := true }) ∧
    (¬ (5 < data.length ∧ data.take 5 = BASE) → CamAuto.onReceive s mac data = s) ∧
    (CamAuto.onReceive s mac data ≠ s → 5 < data.length ∧ data.take 5 = BASE) ∧
    CamAuto.onReceive s mac BASE = s ∧
    (s.baseFound = true → (CamAuto.onReceive s mac data).baseFound = true) := by
  have hmatch : (5 < data.length ∧ data.take 5 = BASE) →
      CamAuto.onReceive s mac data = { baseMacAddress := mac.take 6, baseFound := true } := by
    intro h
    simp [CamAuto.onReceive, h.1, h.2]
  have hother : ¬ (5 < data.length ∧ data.take 5 = BASE) → CamAuto.onReceive s mac data = s := by
    intro h
    unfold CamAuto.onReceive
    simp only
    rw [if_neg]
    simp only [Bool.and_eq_true, decide_eq_true_eq, beq_iff_eq]
    exact h
  refine ⟨hmatch, hother, ?_, rfl, ?_⟩
  · intro hne
    by_contra hno
    exact hne (hother hno)
  · intro hfound
    by_cases hm : 5 < data.length ∧ data.take 5 = BASE
    · rw [hmatch hm]
    · rw [hother hm]
      exact hfound

/-- Witness for C30: a resolved sender receives "BASE:HELLO" from another address (state
rewritten), then the 5-byte frame "BASE:" and the frame "END" (state untouched). -/
theorem c30_discovery_state_changes_witness :
    CamAuto.onReceive ⟨[36, 111, 40, 1, 2, 3], true⟩ [36, 111, 40, 10, 11, 12] BASE_HELLO
      = ⟨[36, 111, 40, 10, 11, 12], true⟩ ∧
    CamAuto.onReceive ⟨[36, 111, 40, 1, 2, 3], true⟩ [36, 111, 40, 10, 11, 12] END
      = ⟨[36, 111, 40, 1, 2, 3], true⟩ ∧
    (CamAuto.onReceive ⟨[36, 111, 40, 1, 2, 3], true⟩ [36, 111, 40, 10, 11, 12]
      BASE_HELLO).baseFound = true ∧
    5 < BASE_HELLO.length ∧ BASE_HELLO.take 5 = BASE :=
  have h1 := c30_discovery_state_changes ⟨[36, 111, 40, 1, 2, 3], true⟩
    [36, 111, 40, 10, 11, 12] BASE_HELLO
  have h2 := c30_discovery_state_changes ⟨[36, 111, 40, 1, 2, 3], true⟩
    [36, 111, 40, 10, 11, 12] END
  ⟨h1.1 (by decide), h2.2.1 (by decide), h1.2.2.2.2 rfl,
    h1.2.2.1 (by decide)⟩

end OfficeCam
